import Mathlib

/-!
Log consumer, log session driver and group converter.

A shallow embedding of `ecs/logs.go` (`logConsumer.Log`, `logConsumer.computeWidth`,
`ecsAPIService.Logs`) and of the group converter exercised by
`azure/convert/convert_test.go`, with the properties proved about them.

Conventions of the embedding.

* A Go `string` holding UTF-8 text is the list of its code points (`GoString`).
  Go's builtin `len` counts bytes, so it is `len` below (the sum of the UTF-8
  sizes), while `fmt` pads by runes, so it uses `List.length`.
* A Go `map[string]V` is an association list with at most one entry per key;
  `range` over it visits the entries in list order, and the one loop of the
  source that ranges over a map computes a maximum, which does not depend on
  that order (`computeWidth_perm`).
* The process-wide channel `loop` and the `io.Writer` behind the consumer are
  the two pieces of state outside the consumer; both are threaded explicitly.
-/

namespace Ecs

/-- A Go string, as the list of its code points. -/
abbrev GoString := List Char

/-- Go's builtin `len` on a string: the number of bytes of its UTF-8 encoding. -/
def len (s : GoString) : Nat := (s.map Char.utf8Size).sum

/-- A Go `error` value (non-nil), identified by its message. -/
abbrev GoError := GoString

/-- The type `colorFunc` of package `ecs`: `func(s string) string`. -/
abbrev colorFunc := GoString → GoString

/-! ## Go maps -/

/-- A Go `map[string]V`. -/
abbrev GoMap (V : Type) := List (GoString × V)

/-- The keys of the map, as `range` visits them. -/
def GoMap.keys {V : Type} (m : GoMap V) : List GoString := m.map Prod.fst

/-- The lookup `v, ok := m[k]`: `none` stands for `ok == false`. -/
def GoMap.get {V : Type} (m : GoMap V) (k : GoString) : Option V :=
  match m with
  | [] => none
  | (k', v) :: rest => if k' = k then some v else GoMap.get rest k

/-- The assignment `m[k] = v`: replaces the entry of `k` or adds one. -/
def GoMap.set {V : Type} (m : GoMap V) (k : GoString) (v : V) : GoMap V :=
  match m with
  | [] => [(k, v)]
  | (k', v') :: rest => if k' = k then (k, v) :: rest else (k', v') :: GoMap.set rest k v

/-! ## Library functions used by `Log` -/

/-- The call `strings.Split(s, sep)` for a separator of one byte, as in
`strings.Split(message, "\n")`: the segments of `s` between the occurrences of
`sep`, in order, empty segments included. -/
def Split (s : GoString) (sep : Char) : List GoString :=
  match s with
  | [] => [[]]
  | c :: cs =>
    if c = sep then [] :: Split cs sep
    else
      match Split cs sep with
      | [] => [[c]]
      | seg :: rest => (c :: seg) :: rest

/-- The call `strings.Join(elems, sep)` for a separator of one byte. -/
def Join (elems : List GoString) (sep : Char) : GoString :=
  match elems with
  | [] => []
  | [e] => e
  | e :: e' :: rest => e ++ sep :: Join (e' :: rest) sep

/-- The verb `%-Ns` of `fmt`: `s` left-justified in a field of `n` runes, that
is `s` followed by spaces up to `n` runes, and `s` itself when it has `n` runes
or more. -/
def padRight (s : GoString) (n : Nat) : GoString :=
  s ++ List.replicate (n - s.length) ' '

/-- The function `tooLarge` of package `fmt`: whether a number is too large to
be used as a width. -/
def tooLarge (x : Nat) : Bool := decide (x > 1000000)

/-- The call `fmt.Sprintf("%-"+strconv.Itoa(width)+"s |", service)`. For a
negative `width` the format reads `%--Ns |`, a second `-` flag followed by the
width `N = -width`, so the digits that `fmt` reads as the width are those of
`width.natAbs` in every case. `fmt` reads them one by one and gives up, with the
rest of the format, when the number read so far is too large and a digit is
still to come, that is when `width.natAbs / 10` is too large: it then prints
`%!(NOVERB)` for the verb it did not find and the unused argument as
`%!(EXTRA string=<service>)`. Otherwise the service name is left-justified in a
field of `width.natAbs` runes and ` |` follows. -/
def sprintfPrefix (width : Int) (service : GoString) : GoString :=
  if tooLarge (width.natAbs / 10) then
    "%!(NOVERB)%!(EXTRA string=".toList ++ service ++ [')']
  else
    padRight service width.natAbs ++ [' ', '|']

/-- The call `fmt.Sprintf("%s %s\n", colored, line)`. -/
def sprintfLine (colored line : GoString) : GoString :=
  colored ++ ' ' :: line ++ ['\n']

/-! ## The color allocator and the writer -/

/-- The channel `loop` of package `ecs`, whose declaration is not in `logs.go`:
an endless supply of color functions, `next i` being the `i`-th value it
delivers, and `drawn` the number of values received from it so far. -/
structure colorChan where
  next : Nat → colorFunc
  drawn : Nat

/-- The receive `<-loop`: the value received and the channel after it. -/
def colorChan.recv (ch : colorChan) : colorFunc × colorChan :=
  (ch.next ch.drawn, { ch with drawn := ch.drawn + 1 })

/-- What `Write` returns: the byte count `n` and the error, `none` for `nil`. -/
structure WriteResult where
  n : Int
  err : Option GoError
  deriving DecidableEq

/-- An `io.Writer`: the state behind the interface value and its `Write`
method, which may return any result, an error included. -/
structure ioWriter (σ : Type) where
  state : σ
  Write : σ → GoString → σ × WriteResult

/-- The method call `w.Write(p)`: the writer after the call and the result. -/
def ioWriter.call {σ : Type} (w : ioWriter σ) (p : GoString) : ioWriter σ × WriteResult :=
  ({ w with state := (w.Write w.state p).1 }, (w.Write w.state p).2)

/-! ## The log consumer -/

/-- The struct `logConsumer`. -/
structure logConsumer (σ : Type) where
  colors : GoMap colorFunc
  width : Int
  writer : ioWriter σ

/-- The method `logConsumer.computeWidth`. -/
def computeWidth {σ : Type} (l : logConsumer σ) : logConsumer σ :=
  let width : Nat :=
    l.colors.keys.foldl (fun width n => if len n > width then len n else width) 0
  { l with width := (width : Int) + 3 }

/-- The body of the loop of `Log`: formats one line and writes it, dropping the
result of `Write`. -/
def writeLine {σ : Type} (cf : colorFunc) (pfx : GoString) (w : ioWriter σ)
    (line : GoString) : ioWriter σ :=
  (w.call (sprintfLine (cf pfx) line)).1

/-- The method `logConsumer.Log`, on the channel `loop` and the consumer; it
returns nothing, and yields the channel and the consumer after the call. -/
def Log {σ : Type} (loop : colorChan) (l : logConsumer σ)
    (service container message : GoString) : colorChan × logConsumer σ :=
  let _ := container
  let (cf, loop, l) :=
    match l.colors.get service with
    | some cf => (cf, loop, l)
    | none =>
      let (cf, loop) := loop.recv
      (cf, loop, computeWidth { l with colors := l.colors.set service cf })
  let pfx := sprintfPrefix l.width service
  (loop, { l with writer := (Split message '\n').foldl (writeLine cf pfx) l.writer })

/-- The consumer that `Logs` builds: no color assigned, width 0. -/
def newConsumer {σ : Type} (writer : ioWriter σ) : logConsumer σ :=
  { colors := [], width := 0, writer := writer }

/-- One invocation of the callback `consumer.Log`. -/
structure LogEvent where
  service : GoString
  container : GoString
  message : GoString
  deriving DecidableEq

/-- A sequence of `Log` calls on one consumer, one after the other. -/
def LogAll {σ : Type} (loop : colorChan) (l : logConsumer σ) (events : List LogEvent) :
    colorChan × logConsumer σ :=
  events.foldl (fun st e => Log st.1 st.2 e.service e.container e.message) (loop, l)

/-- A sink that keeps every chunk handed to `Write`, in order, whether the call
succeeds or fails; `fails` decides, from the chunks seen so far and the chunk
being written, the error of each call. -/
def recorder (fails : List GoString → GoString → Option GoError) (written : List GoString) :
    ioWriter (List GoString) :=
  { state := written
    Write := fun st p =>
      (st ++ [p],
        match fails st p with
        | some e => { n := 0, err := some e }
        | none => { n := (len p : Int), err := none }) }

/-- A sink that appends every chunk handed to `Write` to its content and never
fails, as a `bytes.Buffer` does. -/
def buffer (content : GoString) : ioWriter GoString :=
  { state := content
    Write := fun st p => (st ++ p, { n := (len p : Int), err := none }) }

/-! ## The log session driver -/

/-- The fields of `cli.ProjectOptions` that `Logs` reads or passes on. -/
structure ProjectOptions where
  Name : GoString
  WorkingDir : GoString
  ConfigPaths : List GoString
  deriving DecidableEq

/-- The field of the loaded project that `Logs` reads. -/
structure Project where
  Name : GoString
  deriving DecidableEq

/-- The collaborators of `Logs`, none of which is in `logs.go`: the project
loader `cli.ProjectFromOptions`; `SDK.GetLogs`, which for a deployment name
delivers a sequence of events to the callback and then returns its error; and
whether the signal `os.Interrupt` ever arrives on `signalChan`. -/
structure Collaborators where
  ProjectFromOptions : ProjectOptions → Except GoError Project
  GetLogs : GoString → List LogEvent × Option GoError
  interrupted : Bool

/-- What `Logs` does to the outside, in order. -/
inductive Effect where
  | loadProject (options : ProjectOptions)
  | getLogs (name : GoString)
  | awaitInterrupt
  deriving DecidableEq

/-- A run of `Logs`: the effects performed, the channel `loop` and the consumer
at the end (`none` when no consumer was built), and the value returned:
`none` when the call never returns, `some none` for a `nil` error and
`some (some e)` for the error `e`. -/
structure LogsRun (σ : Type) where
  effects : List Effect
  loop : colorChan
  consumer : Option (logConsumer σ)
  returned : Option (Option GoError)

/-- The tail of `Logs`, from the construction of the consumer on. -/
def logsNamed {σ : Type} (c : Collaborators) (loop : colorChan) (writer : ioWriter σ)
    (pre : List Effect) (name : GoString) : LogsRun σ :=
  let consumer := newConsumer writer
  let (loop, consumer) := LogAll loop consumer (c.GetLogs name).1
  match (c.GetLogs name).2 with
  | some err =>
    { effects := pre ++ [Effect.getLogs name], loop := loop, consumer := some consumer,
      returned := some (some err) }
  | none =>
    { effects := pre ++ [Effect.getLogs name, Effect.awaitInterrupt], loop := loop,
      consumer := some consumer,
      returned := if c.interrupted then some none else none }

/-- The method `ecsAPIService.Logs`. -/
def Logs {σ : Type} (c : Collaborators) (loop : colorChan) (options : ProjectOptions)
    (writer : ioWriter σ) : LogsRun σ :=
  let name := options.Name
  if name = [] then
    match c.ProjectFromOptions options with
    | Except.error err =>
      { effects := [Effect.loadProject options], loop := loop, consumer := none,
        returned := some (some err) }
    | Except.ok project => logsNamed c loop writer [Effect.loadProject options] project.Name
  else
    logsNamed c loop writer [] name

end Ecs

/-! ## The group converter

`ToContainerGroup` is called by `azure/convert/convert_test.go`, but its body is
not among the sources; it is modelled from section 4.1 and 4.3 of the
specification. -/

namespace Convert

open Ecs (GoString GoError Join)

/-- Modelled from the spec: the resource limits of a service as the project
declares them (memory, cpu), before any unit conversion. -/
structure Limits where
  memory : Option GoString
  cpu : Option GoString
  deriving DecidableEq

/-- Modelled from the spec: a service of a compose project (`types.ServiceConfig`):
name, image, optional start command, exposed ports, optional limits. -/
structure ServiceConfig where
  Name : GoString
  Image : GoString
  Command : List GoString
  Ports : List Nat
  Limits : Option Limits
  deriving DecidableEq

/-- Modelled from the spec: a compose project (`compose.Project`): a name and
the services in declaration order. -/
structure Project where
  Name : GoString
  Services : List ServiceConfig
  deriving DecidableEq

/-- The deployment context `store.AciContext`, with the fields the test sets. -/
structure AciContext where
  SubscriptionID : GoString
  ResourceGroup : GoString
  Location : GoString
  deriving DecidableEq

/-- Modelled from the spec: the limits of a container spec, after conversion
(memory in gigabytes). -/
structure ResourceLimits where
  MemoryInGB : Rat
  CPU : Rat
  deriving DecidableEq

/-- Modelled from the spec: a container spec of the group
(`containerinstance.Container`): name, image, command, ports, limits. -/
structure Container where
  Name : GoString
  Image : GoString
  Command : List GoString
  Ports : List Nat
  Limits : Option ResourceLimits
  deriving DecidableEq

/-- Modelled from the spec: the group descriptor
(`containerinstance.ContainerGroup`): name, location, containers. -/
structure ContainerGroup where
  Name : GoString
  Location : GoString
  Containers : List Container
  deriving DecidableEq

/-- Modelled from the spec: the lowercase mapping of runes behind "the lowercase
form" of a name (`unicode.ToLower`), whose table is not among the sources: any
mapping of runes that on ASCII is the usual one, the letters `A` to `Z` going
to `a` to `z` and every other ASCII character staying as it is, and that on
the capital letters of Latin-1, `À` to `Þ` with the sign `×` apart, goes 32
code points up, as the table of Unicode does. -/
structure CaseTable where
  lower : Char → Char
  ascii : ∀ c : Char, c.toNat < 128 → lower c = Char.toLower c
  latin1 : ∀ c : Char, 192 ≤ c.toNat → c.toNat ≤ 222 → c.toNat ≠ 215 →
    lower c = Char.ofNat (c.toNat + 32)

/-- Modelled from the spec: what the converter takes from outside its own
body: the unit-conversion helper for resource limits, the only step that can
fail, the two constants `ComposeDNSSidecarName` and `dnsSidecarImage`, whose
values the specification does not give, and the case table of Unicode. -/
structure Env where
  convertLimits : Limits → Except GoError ResourceLimits
  ComposeDNSSidecarName : GoString
  dnsSidecarImage : GoString
  unicode : CaseTable

/-- Modelled from the spec: the lowercase form of a name (`strings.ToLower`):
every rune is replaced by its lowercase in the case table. -/
def ToLower (table : CaseTable) (s : GoString) : GoString := s.map table.lower

/-- Modelled from the spec: the clause `echo 127.0.0.1 <name> >> /etc/hosts` of
section 4.3. -/
def echoClause (name : GoString) : GoString :=
  "echo 127.0.0.1 ".toList ++ name ++ " >> /etc/hosts".toList

/-- Modelled from the spec: the shell expression of section 4.3, built clause by
clause: for each service in declaration order its clause is appended, a `;`
between two clauses, and `;sleep infinity` comes last. -/
def sidecarExpr (names : List GoString) : GoString :=
  names.foldl (fun expr name => (if expr = [] then [] else expr ++ [';']) ++ echoClause name) []
    ++ ";sleep infinity".toList

/-- Modelled from the spec: the sidecar of section 4.1 and 4.3: the reserved
name, the fixed image and the command `sh -c "<expr>"`. -/
def getDNSSidecar (env : Env) (names : List GoString) : Container :=
  { Name := env.ComposeDNSSidecarName
    Image := env.dnsSidecarImage
    Command := ["sh".toList, "-c".toList, sidecarExpr names]
    Ports := []
    Limits := none }

/-- Modelled from the spec: the container spec of one service: name, image,
command and ports verbatim, limits through the unit-conversion helper, whose
failure is the failure of the conversion. -/
def convertService (env : Env) (s : ServiceConfig) : Except GoError Container :=
  match s.Limits with
  | none =>
    Except.ok { Name := s.Name, Image := s.Image, Command := s.Command, Ports := s.Ports,
                Limits := none }
  | some limits =>
    match env.convertLimits limits with
    | Except.error err => Except.error err
    | Except.ok converted =>
      Except.ok { Name := s.Name, Image := s.Image, Command := s.Command, Ports := s.Ports,
                  Limits := some converted }

/-- Modelled from the spec: the container specs of the services, in declaration
order, failing with the first failure met. -/
def convertServices (env : Env) (services : List ServiceConfig) :
    Except GoError (List Container) :=
  match services with
  | [] => Except.ok []
  | s :: rest =>
    match convertService env s with
    | Except.error err => Except.error err
    | Except.ok c =>
      match convertServices env rest with
      | Except.error err => Except.error err
      | Except.ok cs => Except.ok (c :: cs)

/-- Modelled from the spec: the group converter `ToContainerGroup` of section
4.1: the lowercase project name, the location of the context, one container
spec per service and, when the project has more than one service, the sidecar
as last entry. -/
def ToContainerGroup (env : Env) (aciContext : AciContext) (p : Project) :
    Except GoError ContainerGroup :=
  match convertServices env p.Services with
  | Except.error err => Except.error err
  | Except.ok containers =>
    Except.ok
      { Name := ToLower env.unicode p.Name
        Location := aciContext.Location
        Containers :=
          if p.Services.length > 1 then
            containers ++ [getDNSSidecar env (p.Services.map ServiceConfig.Name)]
          else containers }

/-- The context that `BeforeTest` of `convert_test.go` sets. -/
def suiteCtx : AciContext :=
  { SubscriptionID := "subID".toList, ResourceGroup := "rg".toList, Location := "eu".toList }

/-- The project of `TestComposeContainerGroupToContainerWithDnsSideCarSide`. -/
def twoServiceProject : Project :=
  { Name := []
    Services :=
      [{ Name := "service1".toList, Image := "image1".toList, Command := [], Ports := [],
         Limits := none },
       { Name := "service2".toList, Image := "image2".toList, Command := [], Ports := [],
         Limits := none }] }

/-- The project of `TestComposeSingleContainerGroupToContainerNoDnsSideCarSide`. -/
def singleServiceProject : Project :=
  { Name := []
    Services :=
      [{ Name := "service1".toList, Image := "image1".toList, Command := [], Ports := [],
         Limits := none }] }

/-! ### The container view mapper

`ContainerGroupToContainer` is called by `convert_test.go` as well, and its body
is not among the sources either; it is modelled from section 4.2 of the
specification. -/

/-- Modelled from the spec: a port declared by a container of a running group
(`containerinstance.ContainerPort`); the protocol may be left unspecified. -/
structure ContainerPort where
  Port : Nat
  Protocol : Option GoString
  deriving DecidableEq

/-- Modelled from the spec: the shared network identity of a group
(`containerinstance.IPAddress`): the IP address and the aggregated ports. -/
structure IPAddress where
  IP : GoString
  Ports : List Nat
  deriving DecidableEq

/-- Modelled from the spec: what the view mapper reads of a group as the
backend reports it: the shared network identity, absent until one is
assigned. -/
structure GroupState where
  IPAddress : Option IPAddress
  deriving DecidableEq

/-- Modelled from the spec: a container as the backend reports it, each field
possibly absent: name, image, command, declared ports, last observed state and
memory ceiling. -/
structure ContainerState where
  Name : Option GoString
  Image : Option GoString
  Command : List GoString
  Ports : List ContainerPort
  State : Option GoString
  MemoryInGB : Option Nat
  deriving DecidableEq

/-- Modelled from the spec: a port mapping of the logical container view
(`containers.Port`). -/
structure PortMapping where
  HostPort : Nat
  ContainerPort : Nat
  Protocol : GoString
  HostIP : GoString
  deriving DecidableEq

/-- Modelled from the spec: the logical container view (`containers.Container`):
identifier, state label, image, command, memory limit and port mappings. -/
structure ContainerView where
  ID : GoString
  Status : GoString
  Image : GoString
  Command : GoString
  MemoryLimit : Option Nat
  Ports : List PortMapping
  deriving DecidableEq

/-- Modelled from the spec: the port mappings of section 4.2: none when the
group has no IP address; otherwise each declared port is paired with the shared
IP and the same port number on the host side, the protocol being `tcp` when
unspecified. -/
def ToPorts (ipAddr : Option IPAddress) (ports : List ContainerPort) : List PortMapping :=
  match ipAddr with
  | none => []
  | some ip =>
    ports.map (fun p =>
      { HostPort := p.Port
        ContainerPort := p.Port
        Protocol := p.Protocol.getD "tcp".toList
        HostIP := ip.IP })

/-- Modelled from the spec: the view mapper `ContainerGroupToContainer` of
section 4.2: it fails only when the name or the image of the container is
absent; the state label is empty when no state was observed, and the limit
surfaced is the memory ceiling. -/
def ContainerGroupToContainer (containerID : GoString) (cg : GroupState)
    (cc : ContainerState) : Except GoError ContainerView :=
  match cc.Name, cc.Image with
  | some _, some image =>
    Except.ok
      { ID := containerID
        Status := cc.State.getD []
        Image := image
        Command := Join cc.Command ' '
        MemoryLimit := cc.MemoryInGB
        Ports := ToPorts cg.IPAddress cc.Ports }
  | _, _ => Except.error "container without name or image".toList

/-- The group `myContainerGroup` of `TestContainerGroupToContainer`. -/
def myContainerGroup : GroupState :=
  { IPAddress := some { IP := "42.42.42.42".toList, Ports := [80] } }

/-- The container `myContainer` of `TestContainerGroupToContainer`. -/
def myContainer : ContainerState :=
  { Name := some "myContainerID".toList
    Image := some "sha256:666".toList
    Command := ["mycommand".toList]
    Ports := [{ Port := 80, Protocol := none }]
    State := some "Running".toList
    MemoryInGB := some 9 }

/-- The view `expectedContainer` of `TestContainerGroupToContainer`. -/
def expectedContainer : ContainerView :=
  { ID := "myContainerID".toList
    Status := "Running".toList
    Image := "sha256:666".toList
    Command := "mycommand".toList
    MemoryLimit := some 9
    Ports :=
      [{ HostPort := 80, ContainerPort := 80, Protocol := "tcp".toList,
         HostIP := "42.42.42.42".toList }] }

/-- A case table for the examples: the lowercase of the letters of Basic Latin
and of Latin-1 (`À` to `Þ`, the sign `×` apart), every other rune staying as it
is. -/
def latin1Table : CaseTable :=
  { lower := fun c =>
      if 192 ≤ c.toNat ∧ c.toNat ≤ 222 ∧ c.toNat ≠ 215 then Char.ofNat (c.toNat + 32)
      else Char.toLower c
    ascii := fun c h => if_neg (fun hc => absurd h (by omega))
    latin1 := fun c h1 h2 h3 => if_pos ⟨h1, h2, h3⟩ }

/-- An environment for the examples: a helper that accepts no limits at all,
sample values for the two constants, and the case table of the examples. -/
def sampleEnv : Env :=
  { convertLimits := fun _ => Except.error "malformed resource value".toList
    ComposeDNSSidecarName := "dns-sidecar".toList
    dnsSidecarImage := "busybox".toList
    unicode := latin1Table }

end Convert

/-! ## Lemmas on the library functions -/

namespace Ecs

theorem Split_ne_nil (s : GoString) (sep : Char) : Split s sep ≠ [] := by
  cases s with
  | nil => simp [Split]
  | cons c cs =>
    unfold Split
    split
    · simp
    · split <;> simp

theorem Split_cons_sep (cs : GoString) (sep : Char) :
    Split (sep :: cs) sep = [] :: Split cs sep := by
  simp [Split]

theorem Split_cons_ne (c : Char) (cs : GoString) (sep : Char) (h : c ≠ sep) :
    ∃ seg rest, Split cs sep = seg :: rest ∧ Split (c :: cs) sep = (c :: seg) :: rest := by
  cases hs : Split cs sep with
  | nil => exact absurd hs (Split_ne_nil cs sep)
  | cons seg rest =>
    refine ⟨seg, rest, rfl, ?_⟩
    rw [Split, if_neg h, hs]

theorem Split_length (s : GoString) (sep : Char) :
    (Split s sep).length = s.count sep + 1 := by
  induction s with
  | nil => simp [Split]
  | cons c cs ih =>
    by_cases h : c = sep
    · subst h
      rw [Split_cons_sep, List.length_cons, ih, List.count_cons_self]
    · obtain ⟨seg, rest, h1, h2⟩ := Split_cons_ne c cs sep h
      rw [h2, List.count_cons_of_ne (Ne.symm h), ← ih, h1]
      simp

theorem Join_cons_cons (e e' : GoString) (rest : List GoString) (sep : Char) :
    Join (e :: e' :: rest) sep = e ++ sep :: Join (e' :: rest) sep := by
  rw [Join]

theorem Join_cons_ne_nil (e : GoString) (es : List GoString) (sep : Char) (h : es ≠ []) :
    Join (e :: es) sep = e ++ sep :: Join es sep := by
  cases es with
  | nil => exact absurd rfl h
  | cons e' rest => rw [Join_cons_cons]

theorem Join_cons_char (c : Char) (seg : GoString) (rest : List GoString) (sep : Char) :
    Join ((c :: seg) :: rest) sep = c :: Join (seg :: rest) sep := by
  cases rest with
  | nil => simp [Join]
  | cons e' rest => simp [Join_cons_cons]

theorem Join_Split (s : GoString) (sep : Char) : Join (Split s sep) sep = s := by
  induction s with
  | nil => simp [Split, Join]
  | cons c cs ih =>
    by_cases h : c = sep
    · subst h
      rw [Split_cons_sep, Join_cons_ne_nil _ _ _ (Split_ne_nil cs c), ih]
      rfl
    · obtain ⟨seg, rest, h1, h2⟩ := Split_cons_ne c cs sep h
      rw [h2, Join_cons_char, ← h1, ih]

theorem Split_not_mem (s : GoString) (sep : Char) :
    ∀ seg ∈ Split s sep, sep ∉ seg := by
  induction s with
  | nil => simp [Split]
  | cons c cs ih =>
    by_cases h : c = sep
    · subst h
      rw [Split_cons_sep]
      intro seg hseg
      rcases List.mem_cons.mp hseg with rfl | hseg
      · simp
      · exact ih seg hseg
    · obtain ⟨seg, rest, h1, h2⟩ := Split_cons_ne c cs sep h
      rw [h2]
      rw [h1] at ih
      intro seg' hseg
      rcases List.mem_cons.mp hseg with rfl | hseg
      · intro hmem
        rcases List.mem_cons.mp hmem with hc | hmem
        · exact h hc.symm
        · exact ih seg (List.mem_cons_self _ _) hmem
      · exact ih seg' (List.mem_cons_of_mem _ hseg)

theorem Split_append_sep (s : GoString) (sep : Char) :
    Split (s ++ [sep]) sep = Split s sep ++ [[]] := by
  induction s with
  | nil => simp [Split]
  | cons c cs ih =>
    by_cases h : c = sep
    · subst h
      rw [List.cons_append, Split_cons_sep, Split_cons_sep, ih, List.cons_append]
    · obtain ⟨seg, rest, h1, h2⟩ := Split_cons_ne c cs sep h
      rw [List.cons_append, Split, if_neg h, ih, h2, h1]
      simp

end Ecs

/-! ## Lemmas on maps and on `computeWidth` -/

namespace Ecs

theorem GoMap.get_set_self {V : Type} (m : GoMap V) (k : GoString) (v : V) :
    (m.set k v).get k = some v := by
  induction m with
  | nil => simp [GoMap.set, GoMap.get]
  | cons kv rest ih =>
    obtain ⟨k', v'⟩ := kv
    by_cases h : k' = k
    · simp [GoMap.set, GoMap.get, h]
    · simp [GoMap.set, GoMap.get, h, ih]

theorem GoMap.get_set_ne {V : Type} (m : GoMap V) (k k2 : GoString) (v : V) (hne : k2 ≠ k) :
    (m.set k v).get k2 = m.get k2 := by
  induction m with
  | nil =>
    simp [GoMap.set, GoMap.get, Ne.symm hne]
  | cons kv rest ih =>
    obtain ⟨k', v'⟩ := kv
    by_cases h : k' = k
    · subst h
      simp [GoMap.set, GoMap.get, Ne.symm hne]
    · by_cases h2 : k' = k2
      · subst h2
        simp [GoMap.set, GoMap.get, h]
      · simp [GoMap.set, GoMap.get, h, h2, ih]

theorem GoMap.keys_cons {V : Type} (k : GoString) (v : V) (rest : GoMap V) :
    GoMap.keys ((k, v) :: rest) = k :: GoMap.keys rest := rfl

theorem GoMap.get_cons {V : Type} (k' : GoString) (v : V) (rest : GoMap V) (k : GoString) :
    GoMap.get ((k', v) :: rest) k = if k' = k then some v else GoMap.get rest k := rfl

theorem GoMap.get_eq_none_iff {V : Type} (m : GoMap V) (k : GoString) :
    m.get k = none ↔ k ∉ m.keys := by
  induction m with
  | nil =>
    constructor
    · intro _ hmem
      cases hmem
    · intro _
      rfl
  | cons kv rest ih =>
    obtain ⟨k', v'⟩ := kv
    rw [GoMap.get_cons, GoMap.keys_cons, List.mem_cons]
    by_cases h : k' = k
    · rw [if_pos h]
      constructor
      · intro hsome
        cases hsome
      · intro hnot
        exact absurd (Or.inl h.symm) hnot
    · rw [if_neg h, ih]
      constructor
      · intro hnot hor
        rcases hor with hk | hmem
        · exact h hk.symm
        · exact hnot hmem
      · intro hnot hmem
        exact hnot (Or.inr hmem)

theorem GoMap.keys_set_of_none {V : Type} (m : GoMap V) (k : GoString) (v : V)
    (h : m.get k = none) : (m.set k v).keys = m.keys ++ [k] := by
  induction m with
  | nil => simp [GoMap.set, GoMap.keys]
  | cons kv rest ih =>
    obtain ⟨k', v'⟩ := kv
    by_cases hk : k' = k
    · rw [GoMap.get_cons, if_pos hk] at h
      cases h
    · rw [GoMap.get_cons, if_neg hk] at h
      rw [GoMap.set, if_neg hk, GoMap.keys_cons, GoMap.keys_cons, ih h]
      rfl

/-- The loop of `computeWidth`, started at `a`. -/
theorem widthLoop_spec (names : List GoString) (a : Nat) :
    (∀ n ∈ names, len n ≤ names.foldl (fun width n => if len n > width then len n else width) a)
    ∧ a ≤ names.foldl (fun width n => if len n > width then len n else width) a
    ∧ (names.foldl (fun width n => if len n > width then len n else width) a = a
        ∨ ∃ n ∈ names,
          names.foldl (fun width n => if len n > width then len n else width) a = len n) := by
  induction names generalizing a with
  | nil => simp
  | cons n rest ih =>
    simp only [List.foldl_cons, List.mem_cons, forall_eq_or_imp, exists_eq_or_imp]
    obtain ⟨h1, h2, h3⟩ := ih (if len n > a then len n else a)
    by_cases hgt : len n > a
    · rw [if_pos hgt] at h1 h2 h3 ⊢
      refine ⟨⟨h2, h1⟩, by omega, ?_⟩
      rcases h3 with h3 | ⟨m, hm, h3⟩
      · exact Or.inr (Or.inl h3)
      · exact Or.inr (Or.inr ⟨m, hm, h3⟩)
    · rw [if_neg hgt] at h1 h2 h3 ⊢
      refine ⟨⟨by omega, h1⟩, h2, ?_⟩
      rcases h3 with h3 | ⟨m, hm, h3⟩
      · exact Or.inl h3
      · exact Or.inr (Or.inr ⟨m, hm, h3⟩)

/-- The width `computeWidth` stores: every key fits with three columns to
spare, and when there is a key, one of the longest fills the column exactly. -/
theorem computeWidth_spec {σ : Type} (l : logConsumer σ) :
    (∀ n ∈ l.colors.keys, (len n : Int) + 3 ≤ (computeWidth l).width)
    ∧ (l.colors.keys ≠ [] → ∃ n ∈ l.colors.keys, (computeWidth l).width = (len n : Int) + 3)
    ∧ (l.colors.keys = [] → (computeWidth l).width = 3) := by
  obtain ⟨h1, _, h3⟩ := widthLoop_spec l.colors.keys 0
  refine ⟨?_, ?_, ?_⟩
  · intro n hn
    have := h1 n hn
    simp only [computeWidth]
    omega
  · intro hne
    rcases h3 with h3 | ⟨n, hn, h3⟩
    · obtain ⟨n, hn⟩ := List.exists_mem_of_ne_nil _ hne
      refine ⟨n, hn, ?_⟩
      have := h1 n hn
      simp only [computeWidth]
      omega
    · refine ⟨n, hn, ?_⟩
      simp only [computeWidth]
      omega
  · intro hnil
    simp [computeWidth, hnil]

/-- The width `computeWidth` stores does not depend on the order in which
`range` visits the map. -/
theorem computeWidth_perm {σ : Type} (l l' : logConsumer σ)
    (h : l.colors.keys.Perm l'.colors.keys) :
    (computeWidth l).width = (computeWidth l').width := by
  obtain ⟨a1, a2, a3⟩ := computeWidth_spec l
  obtain ⟨b1, b2, b3⟩ := computeWidth_spec l'
  by_cases hnil : l.colors.keys = []
  · have hnil' : l'.colors.keys = [] := by
      have := h.length_eq
      rw [hnil] at this
      exact List.length_eq_zero.mp this.symm
    rw [a3 hnil, b3 hnil']
  · have hnil' : l'.colors.keys ≠ [] := by
      intro h0
      rw [h0] at h
      exact hnil (List.length_eq_zero.mp h.length_eq)
    obtain ⟨n, hn, en⟩ := a2 hnil
    obtain ⟨m, hm, em⟩ := b2 hnil'
    have := a1 m (h.mem_iff.mpr hm)
    have := b1 n (h.mem_iff.mp hn)
    omega

end Ecs

/-! ## Lemmas on `Log` -/

namespace Ecs

/-- The service column for a width that `fmt` parses. -/
theorem sprintfPrefix_of_fits (width : Int) (service : GoString) (h0 : 0 ≤ width)
    (h : width < 10000010) :
    sprintfPrefix width service =
      service ++ List.replicate (width.toNat - service.length) ' ' ++ [' ', '|'] := by
  have hsmall : tooLarge (width.natAbs / 10) = false := by
    simp only [tooLarge, decide_eq_false_iff_not]
    omega
  have habs : width.natAbs = width.toNat := by omega
  rw [sprintfPrefix, hsmall, habs]
  simp [padRight]

/-- The service column for a width that `fmt` gives up on. -/
theorem sprintfPrefix_of_tooLarge (width : Int) (service : GoString)
    (h : 10000010 ≤ width) :
    sprintfPrefix width service =
      "%!(NOVERB)%!(EXTRA string=".toList ++ service ++ [')'] := by
  have hlarge : tooLarge (width.natAbs / 10) = true := by
    simp only [tooLarge, decide_eq_true_eq]
    omega
  rw [sprintfPrefix, hlarge]
  rfl

theorem Log_known {σ : Type} (loop : colorChan) (l : logConsumer σ)
    (service container message : GoString) (cf : colorFunc)
    (h : l.colors.get service = some cf) :
    Log loop l service container message =
      (loop, { l with writer :=
        (Split message '\n').foldl (writeLine cf (sprintfPrefix l.width service)) l.writer }) := by
  simp only [Log, h]

theorem Log_new {σ : Type} (loop : colorChan) (l : logConsumer σ)
    (service container message : GoString) (h : l.colors.get service = none) :
    Log loop l service container message =
      ({ loop with drawn := loop.drawn + 1 },
        { computeWidth { l with colors := l.colors.set service (loop.next loop.drawn) } with
          writer := (Split message '\n').foldl
            (writeLine (loop.next loop.drawn)
              (sprintfPrefix
                (computeWidth
                  { l with colors := l.colors.set service (loop.next loop.drawn) }).width
                service))
            l.writer }) := by
  simp only [Log, h, colorChan.recv, computeWidth]

theorem recorder_state (fails : List GoString → GoString → Option GoError)
    (written : List GoString) : (recorder fails written).state = written := rfl

theorem foldl_writeLine_recorder (fails : List GoString → GoString → Option GoError)
    (cf : colorFunc) (pfx : GoString) (segs : List GoString) (written : List GoString) :
    segs.foldl (writeLine cf pfx) (recorder fails written) =
      recorder fails (written ++ segs.map (sprintfLine (cf pfx))) := by
  induction segs generalizing written with
  | nil => simp
  | cons seg rest ih =>
    have step : writeLine cf pfx (recorder fails written) seg =
        recorder fails (written ++ [sprintfLine (cf pfx) seg]) := rfl
    rw [List.foldl_cons, step, ih]
    simp

/-- The color function and the formatted service column that a `Log` call for
`service` uses, read off the consumer and the channel before the call. -/
theorem Log_recorder (fails : List GoString → GoString → Option GoError)
    (colors : GoMap colorFunc) (width : Int) (written : List GoString) (loop : colorChan)
    (service container message : GoString) :
    (Log loop { colors := colors, width := width, writer := recorder fails written }
        service container message).2.writer.state =
      written ++ (Split message '\n').map
        (sprintfLine
          ((Log loop { colors := colors, width := width, writer := recorder fails written }
              service container message).2.colors.get service |>.getD id
            (sprintfPrefix
              (Log loop { colors := colors, width := width, writer := recorder fails written }
                service container message).2.width service))) := by
  cases h : GoMap.get colors service with
  | some cf =>
    rw [Log_known _ _ _ _ _ cf h]
    simp [foldl_writeLine_recorder, h, recorder_state]
  | none =>
    rw [Log_new _ _ _ _ _ h]
    simp [foldl_writeLine_recorder, computeWidth, GoMap.get_set_self, recorder_state]

end Ecs

/-! ## The consumers reached from a fresh one -/

namespace Ecs

theorem LogAll_nil {σ : Type} (loop : colorChan) (l : logConsumer σ) :
    LogAll loop l [] = (loop, l) := rfl

theorem LogAll_snoc {σ : Type} (loop : colorChan) (l : logConsumer σ)
    (events : List LogEvent) (e : LogEvent) :
    LogAll loop l (events ++ [e]) =
      Log (LogAll loop l events).1 (LogAll loop l events).2 e.service e.container e.message := by
  simp [LogAll, List.foldl_append]

theorem LogAll_cons {σ : Type} (loop : colorChan) (l : logConsumer σ)
    (events : List LogEvent) (e : LogEvent) :
    LogAll loop l (e :: events) =
      LogAll (Log loop l e.service e.container e.message).1
        (Log loop l e.service e.container e.message).2 events := by
  simp [LogAll]

/-- What one `Log` call does to the channel, the colors and the width. -/
theorem Log_state {σ : Type} (loop : colorChan) (l : logConsumer σ)
    (service container message : GoString) :
    (∀ cf, l.colors.get service = some cf →
      (Log loop l service container message).1 = loop
      ∧ (Log loop l service container message).2.colors = l.colors
      ∧ (Log loop l service container message).2.width = l.width)
    ∧ (l.colors.get service = none →
      (Log loop l service container message).1 = { loop with drawn := loop.drawn + 1 }
      ∧ (Log loop l service container message).2.colors =
          l.colors.set service (loop.next loop.drawn)
      ∧ (Log loop l service container message).2.width =
          (computeWidth { l with colors := l.colors.set service (loop.next loop.drawn) }).width) := by
  constructor
  · intro cf h
    rw [Log_known _ _ _ _ _ cf h]
    exact ⟨rfl, rfl, rfl⟩
  · intro h
    rw [Log_new _ _ _ _ _ h]
    exact ⟨rfl, rfl, rfl⟩

/-- The invariant of the consumers reached from a fresh one: the keys of
`colors` are distinct and are the service names seen, one color was drawn per
key, and the width is 0 before the first call and afterwards 3 more than the
greatest `len` of a key. -/
theorem LogAll_fresh_inv {σ : Type} (loop : colorChan) (writer : ioWriter σ)
    (events : List LogEvent) :
    (LogAll loop (newConsumer writer) events).2.colors.keys.Nodup
    ∧ (∀ s, s ∈ (LogAll loop (newConsumer writer) events).2.colors.keys ↔
        s ∈ events.map LogEvent.service)
    ∧ (LogAll loop (newConsumer writer) events).1.next = loop.next
    ∧ (LogAll loop (newConsumer writer) events).1.drawn =
        loop.drawn + (LogAll loop (newConsumer writer) events).2.colors.keys.length
    ∧ (events = [] → (LogAll loop (newConsumer writer) events).2.width = 0)
    ∧ (events ≠ [] →
        (∀ n ∈ (LogAll loop (newConsumer writer) events).2.colors.keys,
          (len n : Int) + 3 ≤ (LogAll loop (newConsumer writer) events).2.width)
        ∧ ∃ n ∈ (LogAll loop (newConsumer writer) events).2.colors.keys,
          (LogAll loop (newConsumer writer) events).2.width = (len n : Int) + 3) := by
  induction events using List.reverseRecOn with
  | nil =>
    simp [LogAll_nil, newConsumer, GoMap.keys]
  | append_singleton events e ih =>
    obtain ⟨hnd, hmem, hnext, hdrawn, _, hwidth⟩ := ih
    rw [LogAll_snoc]
    obtain ⟨hknown, hnew⟩ := Log_state (LogAll loop (newConsumer writer) events).1
      (LogAll loop (newConsumer writer) events).2 e.service e.container e.message
    cases hget : GoMap.get (LogAll loop (newConsumer writer) events).2.colors e.service with
    | some cf =>
      obtain ⟨h1, h2, h3⟩ := hknown cf hget
      have hin : e.service ∈ (LogAll loop (newConsumer writer) events).2.colors.keys := by
        by_contra hnot
        rw [(GoMap.get_eq_none_iff _ _).mpr hnot] at hget
        cases hget
      have hne : events ≠ [] := by
        intro h0
        subst h0
        simp [LogAll_nil, newConsumer, GoMap.keys] at hin
      rw [h1, h2, h3]
      refine ⟨hnd, ?_, hnext, hdrawn, by simp, fun _ => hwidth hne⟩
      intro s
      rw [hmem s, List.map_append, List.mem_append]
      constructor
      · exact Or.inl
      · rintro (h | h)
        · exact h
        · simp only [List.map_cons, List.map_nil, List.mem_singleton] at h
          rw [h]
          exact (hmem _).mp hin
    | none =>
      obtain ⟨h1, h2, h3⟩ := hnew hget
      have hnotin := (GoMap.get_eq_none_iff _ _).mp hget
      have hkeys := GoMap.keys_set_of_none (LogAll loop (newConsumer writer) events).2.colors
        e.service ((LogAll loop (newConsumer writer) events).1.next
          (LogAll loop (newConsumer writer) events).1.drawn) hget
      obtain ⟨c1, c2, _⟩ := computeWidth_spec
        { (LogAll loop (newConsumer writer) events).2 with
          colors := (LogAll loop (newConsumer writer) events).2.colors.set e.service
            ((LogAll loop (newConsumer writer) events).1.next
              (LogAll loop (newConsumer writer) events).1.drawn) }
      rw [h1, h2, h3, hkeys]
      rw [hkeys] at c1 c2
      refine ⟨?_, ?_, hnext, ?_, by simp, fun _ => ⟨c1, c2 (by simp)⟩⟩
      · rw [List.nodup_append]
        refine ⟨hnd, List.nodup_singleton _, ?_⟩
        intro a ha hb
        rw [List.mem_singleton] at hb
        exact hnotin (hb ▸ ha)
      · intro s
        simp only [List.mem_append, List.mem_singleton, List.map_append, List.map_cons,
          List.map_nil, hmem s]
      · simp only [List.length_append, List.length_singleton]
        omega

end Ecs

/-! ## The lines written by one `Log` call -/

namespace Ecs

/-- C1: for every consumer state, service name and message, `Log` performs one
write per segment of `strings.Split(message, "\n")`, in order: with a sink that
keeps every chunk handed to `Write`, the chunks added by the call are the
segments, each behind one and the same colored service column and followed by a
line break. There are (number of line breaks in `message`) + 1 of them, no
segment contains a line break, an empty message writes one line with empty
content, a message ending in a line break writes a last line with empty
content, and joining the segments with line breaks gives back `message`. -/
theorem Log_writes_one_line_per_segment
    (fails : List GoString → GoString → Option GoError) (colors : GoMap colorFunc)
    (width : Int) (written : List GoString) (loop : colorChan) (service : GoString) :
    ∃ column : GoString, ∀ container message : GoString,
      (Log loop { colors := colors, width := width, writer := recorder fails written }
          service container message).2.writer.state =
        written ++ (Split message '\n').map (fun line => column ++ ' ' :: line ++ ['\n'])
      ∧ ((Log loop { colors := colors, width := width, writer := recorder fails written }
          service container message).2.writer.state).length =
        written.length + (message.count '\n' + 1)
      ∧ (Split message '\n').length = message.count '\n' + 1
      ∧ (∀ seg ∈ Split message '\n', '\n' ∉ seg)
      ∧ Join (Split message '\n') '\n' = message
      ∧ (Log loop { colors := colors, width := width, writer := recorder fails written }
          service container []).2.writer.state = written ++ [column ++ [' ', '\n']]
      ∧ (Log loop { colors := colors, width := width, writer := recorder fails written }
          service container (message ++ ['\n'])).2.writer.state =
        written ++ (Split message '\n').map (fun line => column ++ ' ' :: line ++ ['\n'])
          ++ [column ++ [' ', '\n']] := by
  have key : ∃ column : GoString, ∀ container message : GoString,
      (Log loop { colors := colors, width := width, writer := recorder fails written }
          service container message).2.writer.state =
        written ++ (Split message '\n').map (fun line => column ++ ' ' :: line ++ ['\n']) := by
    cases h : GoMap.get colors service with
    | some cf =>
      refine ⟨cf (sprintfPrefix width service), fun container message => ?_⟩
      rw [Log_known _ _ _ _ _ cf h]
      simp only [foldl_writeLine_recorder, recorder_state]
      rfl
    | none =>
      refine ⟨loop.next loop.drawn
        (sprintfPrefix
          (computeWidth { colors := colors.set service (loop.next loop.drawn), width := width,
                          writer := recorder fails written }).width service),
        fun container message => ?_⟩
      rw [Log_new _ _ _ _ _ h]
      simp only [computeWidth, foldl_writeLine_recorder, recorder_state]
      rfl
  obtain ⟨column, hcol⟩ := key
  refine ⟨column, fun container message => ⟨hcol container message, ?_, Split_length _ _,
    Split_not_mem _ _, Join_Split _ _, ?_, ?_⟩⟩
  · rw [hcol, List.length_append, List.length_map, Split_length]
  · rw [hcol]
    simp [Split]
  · rw [hcol, Split_append_sep, List.map_append, List.append_assoc]
    simp

end Ecs

/-! ## The column width -/

namespace Ecs

theorem LogAll_fresh_width {σ : Type} (loop : colorChan) (writer : ioWriter σ)
    (events : List LogEvent) (hne : events ≠ []) :
    (∀ e ∈ events,
      (len e.service : Int) + 3 ≤ (LogAll loop (newConsumer writer) events).2.width)
    ∧ (∃ e ∈ events,
      (LogAll loop (newConsumer writer) events).2.width = (len e.service : Int) + 3) := by
  obtain ⟨_, hmem, _, _, _, hwidth⟩ := LogAll_fresh_inv loop writer events
  obtain ⟨hle, n, hn, heq⟩ := hwidth hne
  constructor
  · intro e he
    exact hle e.service ((hmem _).mpr (List.mem_map_of_mem _ he))
  · obtain ⟨e, he, hes⟩ := List.mem_map.mp ((hmem n).mp hn)
    exact ⟨e, he, by rw [hes]; exact heq⟩

/-- C2: starting from a fresh consumer (no colors, width 0), after every
non-empty sequence of `Log` calls the width is 3 plus the greatest `len` of the
service names seen so far, which are the keys of `colors`: every name seen has
`len + 3` at most the width, and one of them has `len + 3` equal to it. After
messages for `service1` and `a-much-longer-service-name`, in either order, the
width is 29. -/
theorem width_eq_max_len_add_three {σ : Type} (loop : colorChan) (writer : ioWriter σ)
    (events : List LogEvent) (hne : events ≠ []) :
    (∀ e ∈ events,
      (len e.service : Int) + 3 ≤ (LogAll loop (newConsumer writer) events).2.width)
    ∧ (∃ e ∈ events,
      (LogAll loop (newConsumer writer) events).2.width = (len e.service : Int) + 3)
    ∧ (∀ s, s ∈ (LogAll loop (newConsumer writer) events).2.colors.keys ↔
        ∃ e ∈ events, e.service = s)
    ∧ (∀ c1 m1 c2 m2 : GoString,
        (LogAll loop (newConsumer writer)
          [{ service := "service1".toList, container := c1, message := m1 },
           { service := "a-much-longer-service-name".toList, container := c2,
             message := m2 }]).2.width = 29
        ∧ (LogAll loop (newConsumer writer)
          [{ service := "a-much-longer-service-name".toList, container := c2, message := m2 },
           { service := "service1".toList, container := c1, message := m1 }]).2.width = 29) := by
  obtain ⟨hle, hex⟩ := LogAll_fresh_width loop writer events hne
  obtain ⟨_, hmem, _⟩ := LogAll_fresh_inv loop writer events
  have l1 : len "service1".toList = 8 := by decide
  have l2 : len "a-much-longer-service-name".toList = 26 := by decide
  refine ⟨hle, hex, ?_, ?_⟩
  · intro s
    rw [hmem s, List.mem_map]
  · intro c1 m1 c2 m2
    constructor
    · obtain ⟨a, b, hb, hw⟩ := LogAll_fresh_width loop writer
        [{ service := "service1".toList, container := c1, message := m1 },
         { service := "a-much-longer-service-name".toList, container := c2, message := m2 }]
        (by simp)
      have a1 := a _ (List.mem_cons_self _ _)
      have a2 := a _ (List.mem_cons_of_mem _ (List.mem_cons_self _ _))
      simp only [List.mem_cons, List.mem_singleton, List.not_mem_nil, or_false] at hb
      rcases hb with rfl | rfl <;> simp only [l1, l2] at a1 a2 hw <;> omega
    · obtain ⟨a, b, hb, hw⟩ := LogAll_fresh_width loop writer
        [{ service := "a-much-longer-service-name".toList, container := c2, message := m2 },
         { service := "service1".toList, container := c1, message := m1 }]
        (by simp)
      have a1 := a _ (List.mem_cons_self _ _)
      have a2 := a _ (List.mem_cons_of_mem _ (List.mem_cons_self _ _))
      simp only [List.mem_cons, List.mem_singleton, List.not_mem_nil, or_false] at hb
      rcases hb with rfl | rfl <;> simp only [l1, l2] at a1 a2 hw <;> omega

/-- Witness of C2: one message for `db`, on a sink that records the chunks. -/
theorem width_eq_max_len_add_three_witness :
    (∀ e ∈ [({ service := "db".toList, container := [], message := "up".toList } : LogEvent)],
      (len e.service : Int) + 3 ≤
        (LogAll { next := fun _ s => s, drawn := 0 } (newConsumer (recorder (fun _ _ => none) []))
          [{ service := "db".toList, container := [], message := "up".toList }]).2.width)
    ∧ (LogAll { next := fun _ s => s, drawn := 0 } (newConsumer (recorder (fun _ _ => none) []))
          [{ service := "db".toList, container := [], message := "up".toList }]).2.width = 5 :=
  ⟨(width_eq_max_len_add_three { next := fun _ s => s, drawn := 0 }
      (recorder (fun _ _ => none) [])
      [{ service := "db".toList, container := [], message := "up".toList }] (by decide)).1,
    by decide⟩

end Ecs

/-! ## The format of a line -/

namespace Ecs

theorem utf8Size_pos (c : Char) : 1 ≤ c.utf8Size := Char.utf8Size_pos c

theorem length_le_len (s : GoString) : s.length ≤ len s := by
  induction s with
  | nil => simp [len]
  | cons c cs ih =>
    have hc := utf8Size_pos c
    have hlen : len (c :: cs) = c.utf8Size + len cs := by simp [len]
    rw [hlen, List.length_cons]
    omega

/-- One `Log` call on a consumer whose sink records the chunks: the sink after
the call, with the color and the width read off the consumer after the call. -/
theorem Log_writer_recorder (fails : List GoString → GoString → Option GoError)
    (written : List GoString) (loop : colorChan) (l : logConsumer (List GoString))
    (hw : l.writer = recorder fails written) (service container message : GoString) :
    (Log loop l service container message).2.writer =
      recorder fails (written ++ (Split message '\n').map
        (sprintfLine
          (((Log loop l service container message).2.colors.get service).getD id
            (sprintfPrefix (Log loop l service container message).2.width service)))) := by
  cases h : GoMap.get l.colors service with
  | some cf =>
    rw [Log_known _ _ _ _ _ cf h]
    simp [foldl_writeLine_recorder, h, hw]
  | none =>
    rw [Log_new _ _ _ _ _ h]
    simp [foldl_writeLine_recorder, computeWidth, GoMap.get_set_self, hw]

theorem LogAll_writer_recorder (fails : List GoString → GoString → Option GoError)
    (written : List GoString) (loop : colorChan) (l : logConsumer (List GoString))
    (hw : l.writer = recorder fails written) (events : List LogEvent) :
    ∃ written2, (LogAll loop l events).2.writer = recorder fails written2 := by
  induction events using List.reverseRecOn with
  | nil => exact ⟨written, hw⟩
  | append_singleton events e ih =>
    obtain ⟨w2, hw2⟩ := ih
    rw [LogAll_snoc]
    exact ⟨_, Log_writer_recorder fails w2 _ _ hw2 _ _ _⟩

/-- C3, amended: for a consumer reached from a fresh one by `Log` calls, when
the width after the call is below 10000010, the widths that `fmt` parses (it is
so when every name seen is shorter than 10000007 bytes), the chunks that
`Log(service, container, message)` writes are, for each segment `line` in
order, `cf(column)` followed by one space, `line` and a line break, where `cf`
is the color function that `colors` holds for `service` after the call and
`column` is the service name followed by spaces up to the width of the consumer
after the call, then ` |`. The name is never cut and never overflows: its
length, in bytes and so in runes, is at most the width minus 3, and the padded
name has exactly `width` runes. -/
theorem Log_line_format (fails : List GoString → GoString → Option GoError)
    (written : List GoString) (loop : colorChan) (events : List LogEvent)
    (service container message : GoString)
    (hfit : (Log (LogAll loop (newConsumer (recorder fails written)) events).1
        (LogAll loop (newConsumer (recorder fails written)) events).2
        service container message).2.width < 10000010) :
    ∃ cf : colorFunc,
      (Log (LogAll loop (newConsumer (recorder fails written)) events).1
          (LogAll loop (newConsumer (recorder fails written)) events).2
          service container message).2.colors.get service = some cf
      ∧ (len service : Int) + 3 ≤
          (Log (LogAll loop (newConsumer (recorder fails written)) events).1
            (LogAll loop (newConsumer (recorder fails written)) events).2
            service container message).2.width
      ∧ (service.length : Int) + 3 ≤
          (Log (LogAll loop (newConsumer (recorder fails written)) events).1
            (LogAll loop (newConsumer (recorder fails written)) events).2
            service container message).2.width
      ∧ (((service ++ List.replicate
            ((Log (LogAll loop (newConsumer (recorder fails written)) events).1
              (LogAll loop (newConsumer (recorder fails written)) events).2
              service container message).2.width.toNat - service.length) ' ').length : Nat) : Int)
          = (Log (LogAll loop (newConsumer (recorder fails written)) events).1
              (LogAll loop (newConsumer (recorder fails written)) events).2
              service container message).2.width
      ∧ (Log (LogAll loop (newConsumer (recorder fails written)) events).1
          (LogAll loop (newConsumer (recorder fails written)) events).2
          service container message).2.writer.state =
        (LogAll loop (newConsumer (recorder fails written)) events).2.writer.state ++
          (Split message '\n').map (fun line =>
            cf (service ++ List.replicate
                ((Log (LogAll loop (newConsumer (recorder fails written)) events).1
                  (LogAll loop (newConsumer (recorder fails written)) events).2
                  service container message).2.width.toNat - service.length) ' ' ++ [' ', '|'])
              ++ [' '] ++ line ++ ['\n']) := by
  have hsnoc := LogAll_snoc loop (newConsumer (recorder fails written)) events
    { service := service, container := container, message := message }
  simp only at hsnoc
  obtain ⟨_, hmem, _, _, _, hwidth⟩ := LogAll_fresh_inv loop (recorder fails written)
    (events ++ [{ service := service, container := container, message := message }])
  rw [hsnoc] at hmem hwidth
  obtain ⟨w2, hw2⟩ := LogAll_writer_recorder fails written loop
    (newConsumer (recorder fails written)) rfl events
  have hrec := Log_writer_recorder fails w2
    (LogAll loop (newConsumer (recorder fails written)) events).1
    (LogAll loop (newConsumer (recorder fails written)) events).2 hw2 service container message
  generalize Log (LogAll loop (newConsumer (recorder fails written)) events).1
    (LogAll loop (newConsumer (recorder fails written)) events).2
    service container message = r at hmem hwidth hrec hfit ⊢
  have hin : service ∈ r.2.colors.keys := (hmem service).mpr (by simp)
  obtain ⟨hle, _⟩ := hwidth (by simp)
  have hlen := hle service hin
  have hrunes := length_le_len service
  cases hget : GoMap.get r.2.colors service with
  | none => exact absurd hin ((GoMap.get_eq_none_iff _ _).mp hget)
  | some cf =>
    refine ⟨cf, rfl, hlen, by omega, ?_, ?_⟩
    · rw [List.length_append, List.length_replicate]
      omega
    · rw [hrec, hw2, recorder_state, recorder_state, hget,
        sprintfPrefix_of_fits _ _ (by omega) hfit]
      simp [sprintfLine]

/-- Witness of C3: a first message for `db`, of two lines. -/
theorem Log_line_format_witness :
    ∃ cf : colorFunc,
      (Log { next := fun _ x => x, drawn := 0 } (newConsumer (recorder (fun _ _ => none) []))
          "db".toList [] "up\nok".toList).2.writer.state =
        [] ++ (Split "up\nok".toList '\n').map (fun line =>
          cf ("db".toList ++ List.replicate
              ((Log { next := fun _ x => x, drawn := 0 } (newConsumer (recorder (fun _ _ => none) []))
                "db".toList [] "up\nok".toList).2.width.toNat - "db".toList.length) ' '
              ++ [' ', '|'])
            ++ [' '] ++ line ++ ['\n']) :=
  (Log_line_format (fun _ _ => none) [] { next := fun _ x => x, drawn := 0 } [] "db".toList []
      "up\nok".toList (by decide)).imp (fun _ h => h.2.2.2.2)

end Ecs

/-! ## Color assignment -/

namespace Ecs

theorem LogAll_fresh_keys_length {σ : Type} (loop : colorChan) (writer : ioWriter σ)
    (events : List LogEvent) :
    (LogAll loop (newConsumer writer) events).2.colors.keys.length =
      (events.map LogEvent.service).dedup.length := by
  obtain ⟨hnd, hmem, _⟩ := LogAll_fresh_inv loop writer events
  apply List.Perm.length_eq
  rw [List.perm_ext_iff_of_nodup hnd (List.nodup_dedup _)]
  intro s
  rw [hmem s, List.mem_dedup]

/-- C4: `Log` draws exactly one color from the channel `loop` when the service
is not yet a key of `colors`: the color is stored under the service name, which
becomes the one new key, and the width is recomputed: it is the one
`computeWidth` gives on the colors so extended, that is 3 more than the
greatest `len` of a key, the new one included, whatever the width was before.
When the service is already a key, `Log` draws no color and
leaves the channel, the colors and the width as they were. Hence after any
sequence of `Log` calls on a fresh consumer the keys of `colors` are distinct
and are exactly the service names seen, and the number of colors drawn is the
number of distinct service names. -/
theorem Log_draws_one_color_per_new_service {σ : Type} (loop : colorChan)
    (l : logConsumer σ) (service container message : GoString)
    (writer : ioWriter σ) (events : List LogEvent) :
    (service ∉ l.colors.keys →
      (Log loop l service container message).1.drawn = loop.drawn + 1
      ∧ (Log loop l service container message).1.next = loop.next
      ∧ (Log loop l service container message).2.colors =
          l.colors.set service (loop.next loop.drawn)
      ∧ (Log loop l service container message).2.colors.keys = l.colors.keys ++ [service]
      ∧ (Log loop l service container message).2.colors.get service =
          some (loop.next loop.drawn)
      ∧ (Log loop l service container message).2.width =
          (computeWidth { l with colors := l.colors.set service (loop.next loop.drawn) }).width
      ∧ (∀ k ∈ l.colors.keys ++ [service],
          (len k : Int) + 3 ≤ (Log loop l service container message).2.width)
      ∧ (∃ k ∈ l.colors.keys ++ [service],
          (Log loop l service container message).2.width = (len k : Int) + 3))
    ∧ (service ∈ l.colors.keys →
      (Log loop l service container message).1 = loop
      ∧ (Log loop l service container message).2.colors = l.colors
      ∧ (Log loop l service container message).2.width = l.width)
    ∧ (LogAll loop (newConsumer writer) events).2.colors.keys.Nodup
    ∧ (∀ s, s ∈ (LogAll loop (newConsumer writer) events).2.colors.keys ↔
        ∃ e ∈ events, e.service = s)
    ∧ (LogAll loop (newConsumer writer) events).2.colors.keys.length =
        (events.map LogEvent.service).dedup.length
    ∧ (LogAll loop (newConsumer writer) events).1.drawn =
        loop.drawn + (events.map LogEvent.service).dedup.length := by
  obtain ⟨hknown, hnew⟩ := Log_state loop l service container message
  obtain ⟨hnd, hmem, _, hdrawn, _⟩ := LogAll_fresh_inv loop writer events
  refine ⟨?_, ?_, hnd, ?_, LogAll_fresh_keys_length loop writer events, ?_⟩
  · intro hnot
    have hget := (GoMap.get_eq_none_iff _ _).mpr hnot
    obtain ⟨h1, h2, h3⟩ := hnew hget
    obtain ⟨c1, c2, _⟩ := computeWidth_spec
      { l with colors := l.colors.set service (loop.next loop.drawn) }
    rw [GoMap.keys_set_of_none _ _ _ hget] at c1 c2
    refine ⟨by rw [h1], by rw [h1], h2, ?_, ?_, h3, ?_, ?_⟩
    · rw [h2, GoMap.keys_set_of_none _ _ _ hget]
    · rw [h2, GoMap.get_set_self]
    · rw [h3]
      exact c1
    · rw [h3]
      exact c2 (by simp)
  · intro hin
    cases hget : GoMap.get l.colors service with
    | none => exact absurd hin ((GoMap.get_eq_none_iff _ _).mp hget)
    | some cf => exact hknown cf hget
  · intro s
    rw [hmem s, List.mem_map]
  · rw [hdrawn, LogAll_fresh_keys_length]

/-- Witness of C4: a first message for `db` on a fresh consumer, and a message
for `db` on a consumer that knows `db`. -/
theorem Log_draws_one_color_per_new_service_witness :
    (Log { next := fun _ s => s, drawn := 0 } (newConsumer (recorder (fun _ _ => none) []))
        "db".toList [] "up".toList).1.drawn = 0 + 1
    ∧ (Log { next := fun _ s => s, drawn := 4 }
        { colors := [("db".toList, id)], width := 5, writer := recorder (fun _ _ => none) [] }
        "db".toList [] "up".toList).2.width = 5
    ∧ (∀ k ∈ (newConsumer (recorder (fun _ _ => none) [])).colors.keys ++ ["db".toList],
        (len k : Int) + 3 ≤
          (Log { next := fun _ s => s, drawn := 0 }
            (newConsumer (recorder (fun _ _ => none) []))
            "db".toList [] "up".toList).2.width)
    ∧ (Log { next := fun _ s => s, drawn := 0 } (newConsumer (recorder (fun _ _ => none) []))
        "db".toList [] "up".toList).2.width = 5 :=
  ⟨((Log_draws_one_color_per_new_service { next := fun _ s => s, drawn := 0 }
      (newConsumer (recorder (fun _ _ => none) [])) "db".toList [] "up".toList
      (recorder (fun _ _ => none) []) []).1 (by decide)).1,
   ((Log_draws_one_color_per_new_service { next := fun _ s => s, drawn := 4 }
      { colors := [("db".toList, id)], width := 5, writer := recorder (fun _ _ => none) [] }
      "db".toList [] "up".toList (recorder (fun _ _ => none) []) []).2.1 (by decide)).2.2,
   ((Log_draws_one_color_per_new_service { next := fun _ s => s, drawn := 0 }
      (newConsumer (recorder (fun _ _ => none) [])) "db".toList [] "up".toList
      (recorder (fun _ _ => none) []) []).1 (by decide)).2.2.2.2.2.2.1,
   by decide⟩

end Ecs

/-! ## Failing writes -/

namespace Ecs

/-- The channel, the colors and the width after a `Log` call do not depend on
the writer of the consumer. -/
theorem Log_state_writer_irrelevant {σ τ : Type} (loop : colorChan) (colors : GoMap colorFunc)
    (width : Int) (w : ioWriter σ) (w2 : ioWriter τ) (service container message : GoString) :
    (Log loop { colors := colors, width := width, writer := w } service container message).1 =
      (Log loop { colors := colors, width := width, writer := w2 } service container message).1
    ∧ (Log loop { colors := colors, width := width, writer := w }
        service container message).2.colors =
      (Log loop { colors := colors, width := width, writer := w2 }
        service container message).2.colors
    ∧ (Log loop { colors := colors, width := width, writer := w }
        service container message).2.width =
      (Log loop { colors := colors, width := width, writer := w2 }
        service container message).2.width := by
  cases h : GoMap.get colors service with
  | some cf =>
    rw [Log_known _ _ _ _ _ cf h, Log_known _ _ _ _ _ cf h]
    exact ⟨rfl, rfl, rfl⟩
  | none =>
    rw [Log_new _ _ _ _ _ h, Log_new _ _ _ _ _ h]
    exact ⟨rfl, rfl, rfl⟩

/-- C5: with a sink whose `Write` may fail on any call (the failures are chosen
by `fails`, from the chunks attempted so far and the chunk at hand), `Log`
still attempts one write for every segment of the message: the attempts
recorded are the same, in number, order and content, as with any other choice
`fails2` of the failures, there are (number of line breaks) + 1 of them, and
the channel, the colors and the width after the call are the same too. `Log`
has no result through which a failure could be reported. -/
theorem Log_attempts_every_line_despite_failures
    (fails fails2 : List GoString → GoString → Option GoError) (colors : GoMap colorFunc)
    (width : Int) (written : List GoString) (loop : colorChan)
    (service container message : GoString) :
    (Log loop { colors := colors, width := width, writer := recorder fails written }
        service container message).2.writer.state =
      (Log loop { colors := colors, width := width, writer := recorder fails2 written }
        service container message).2.writer.state
    ∧ (Log loop { colors := colors, width := width, writer := recorder fails written }
        service container message).2.writer.state =
      written ++ (Split message '\n').map (fun line =>
        ((Log loop { colors := colors, width := width, writer := recorder fails2 written }
            service container message).2.colors.get service |>.getD id)
          (sprintfPrefix
            (Log loop { colors := colors, width := width, writer := recorder fails2 written }
              service container message).2.width service)
          ++ ' ' :: line ++ ['\n'])
    ∧ ((Log loop { colors := colors, width := width, writer := recorder fails written }
        service container message).2.writer.state).length =
      written.length + (message.count '\n' + 1)
    ∧ (Log loop { colors := colors, width := width, writer := recorder fails written }
        service container message).1 =
      (Log loop { colors := colors, width := width, writer := recorder fails2 written }
        service container message).1
    ∧ (Log loop { colors := colors, width := width, writer := recorder fails written }
        service container message).2.colors =
      (Log loop { colors := colors, width := width, writer := recorder fails2 written }
        service container message).2.colors
    ∧ (Log loop { colors := colors, width := width, writer := recorder fails written }
        service container message).2.width =
      (Log loop { colors := colors, width := width, writer := recorder fails2 written }
        service container message).2.width := by
  obtain ⟨h1, h2, h3⟩ := Log_state_writer_irrelevant loop colors width
    (recorder fails written) (recorder fails2 written) service container message
  have hA := Log_recorder fails colors width written loop service container message
  have hB := Log_recorder fails2 colors width written loop service container message
  refine ⟨?_, ?_, ?_, h1, h2, h3⟩
  · rw [hA, hB, h2, h3]
  · rw [hA, h2, h3]
    rfl
  · rw [hA, List.length_append, List.length_map, Split_length]

end Ecs

/-! ## The log session driver -/

namespace Ecs

/-- The run of `Logs` once the name is known: `GetLogs` is called with that
name, and the wait for the signal follows only when it returned no error. -/
theorem logsNamed_spec {σ : Type} (c : Collaborators) (loop : colorChan) (writer : ioWriter σ)
    (pre : List Effect) (name : GoString) :
    (∀ err, (c.GetLogs name).2 = some err →
      (logsNamed c loop writer pre name).returned = some (some err)
      ∧ (logsNamed c loop writer pre name).effects = pre ++ [Effect.getLogs name])
    ∧ ((c.GetLogs name).2 = none →
      (logsNamed c loop writer pre name).returned = (if c.interrupted then some none else none)
      ∧ (logsNamed c loop writer pre name).effects =
          pre ++ [Effect.getLogs name, Effect.awaitInterrupt]) := by
  constructor
  · intro err h
    constructor <;> simp [logsNamed, h]
  · intro h
    constructor <;> simp [logsNamed, h]

theorem Logs_named {σ : Type} (c : Collaborators) (loop : colorChan) (options : ProjectOptions)
    (writer : ioWriter σ) (h : options.Name ≠ []) :
    Logs c loop options writer = logsNamed c loop writer [] options.Name := by
  simp only [Logs, if_neg h]

theorem Logs_loaded {σ : Type} (c : Collaborators) (loop : colorChan) (options : ProjectOptions)
    (writer : ioWriter σ) (h : options.Name = []) (project : Project)
    (hload : c.ProjectFromOptions options = Except.ok project) :
    Logs c loop options writer =
      logsNamed c loop writer [Effect.loadProject options] project.Name := by
  simp only [Logs, if_pos h, hload]

theorem Logs_load_failed {σ : Type} (c : Collaborators) (loop : colorChan)
    (options : ProjectOptions) (writer : ioWriter σ) (h : options.Name = []) (err : GoError)
    (hload : c.ProjectFromOptions options = Except.error err) :
    Logs c loop options writer =
      { effects := [Effect.loadProject options], loop := loop, consumer := none,
        returned := some (some err) } := by
  simp only [Logs, if_pos h, hload]

/-- C6: `Logs` returns a setup failure unchanged and without waiting for the
interrupt signal, whether or not the signal ever arrives. If the name is empty
and loading the project fails with `err`, `Logs` returns `err` after the load
alone: `GetLogs` is not called. If `GetLogs`, called with the name given or
with the name of the loaded project, returns `err`, `Logs` returns `err` and
the call of `GetLogs` is its last effect. And when `Logs` returns a nil error,
`GetLogs` was called, returned no error, and the wait for the signal came
after it. -/
theorem Logs_returns_setup_failure {σ : Type} (c : Collaborators) (loop : colorChan)
    (options : ProjectOptions) (writer : ioWriter σ) :
    (∀ err, options.Name = [] → c.ProjectFromOptions options = Except.error err →
      (Logs c loop options writer).returned = some (some err)
      ∧ (Logs c loop options writer).effects = [Effect.loadProject options])
    ∧ (∀ err, options.Name ≠ [] → (c.GetLogs options.Name).2 = some err →
      (Logs c loop options writer).returned = some (some err)
      ∧ (Logs c loop options writer).effects = [Effect.getLogs options.Name])
    ∧ (∀ project err, options.Name = [] → c.ProjectFromOptions options = Except.ok project →
      (c.GetLogs project.Name).2 = some err →
      (Logs c loop options writer).returned = some (some err)
      ∧ (Logs c loop options writer).effects =
          [Effect.loadProject options, Effect.getLogs project.Name])
    ∧ ((Logs c loop options writer).returned = some none →
      c.interrupted = true
      ∧ ∃ pre name, (c.GetLogs name).2 = none
        ∧ (Logs c loop options writer).effects =
            pre ++ [Effect.getLogs name, Effect.awaitInterrupt]) := by
  refine ⟨?_, ?_, ?_, ?_⟩
  · intro err h hload
    rw [Logs_load_failed c loop options writer h err hload]
    exact ⟨rfl, rfl⟩
  · intro err h hget
    rw [Logs_named c loop options writer h]
    exact (logsNamed_spec c loop writer [] options.Name).1 err hget
  · intro project err h hload hget
    rw [Logs_loaded c loop options writer h project hload]
    exact (logsNamed_spec c loop writer [Effect.loadProject options] project.Name).1 err hget
  · have key : ∀ pre name, (logsNamed c loop writer pre name).returned = some none →
        c.interrupted = true
        ∧ ∃ pre2 name2, (c.GetLogs name2).2 = none
          ∧ (logsNamed c loop writer pre name).effects =
              pre2 ++ [Effect.getLogs name2, Effect.awaitInterrupt] := by
      intro pre name hret
      obtain ⟨hfail, hok⟩ := logsNamed_spec c loop writer pre name
      cases hget : (c.GetLogs name).2 with
      | some err =>
        rw [(hfail err hget).1] at hret
        cases hret
      | none =>
        obtain ⟨h1, h2⟩ := hok hget
        rw [h1] at hret
        refine ⟨?_, pre, name, hget, h2⟩
        by_cases hi : c.interrupted = true
        · exact hi
        · rw [if_neg hi] at hret
          cases hret
    intro hret
    by_cases h : options.Name = []
    · cases hload : c.ProjectFromOptions options with
      | error err =>
        rw [Logs_load_failed c loop options writer h err hload] at hret
        cases hret
      | ok project =>
        rw [Logs_loaded c loop options writer h project hload] at hret ⊢
        exact key _ _ hret
    · rw [Logs_named c loop options writer h] at hret ⊢
      exact key _ _ hret

/-- Witness of C6: a failing load, a failing `GetLogs` with the name given and
with the name loaded, and a run that returns no error. -/
theorem Logs_returns_setup_failure_witness :
    (Logs { ProjectFromOptions := fun _ => Except.error "no compose file".toList,
            GetLogs := fun _ => ([], none), interrupted := false }
        { next := fun _ s => s, drawn := 0 }
        { Name := [], WorkingDir := [], ConfigPaths := [] }
        (recorder (fun _ _ => none) [])).returned = some (some "no compose file".toList)
    ∧ (Logs { ProjectFromOptions := fun _ => Except.ok { Name := "app".toList },
              GetLogs := fun _ => ([], some "denied".toList), interrupted := false }
        { next := fun _ s => s, drawn := 0 }
        { Name := "web".toList, WorkingDir := [], ConfigPaths := [] }
        (recorder (fun _ _ => none) [])).returned = some (some "denied".toList)
    ∧ (Logs { ProjectFromOptions := fun _ => Except.ok { Name := "app".toList },
              GetLogs := fun _ => ([], some "denied".toList), interrupted := false }
        { next := fun _ s => s, drawn := 0 }
        { Name := [], WorkingDir := [], ConfigPaths := [] }
        (recorder (fun _ _ => none) [])).effects =
        [Effect.loadProject { Name := [], WorkingDir := [], ConfigPaths := [] },
         Effect.getLogs "app".toList]
    ∧ ({ ProjectFromOptions := fun _ => Except.ok { Name := "app".toList },
         GetLogs := fun _ => ([], none), interrupted := true } : Collaborators).interrupted
        = true :=
  ⟨((Logs_returns_setup_failure
      { ProjectFromOptions := fun _ => Except.error "no compose file".toList,
        GetLogs := fun _ => ([], none), interrupted := false }
      { next := fun _ s => s, drawn := 0 }
      { Name := [], WorkingDir := [], ConfigPaths := [] }
      (recorder (fun _ _ => none) [])).1 "no compose file".toList rfl rfl).1,
   ((Logs_returns_setup_failure
      { ProjectFromOptions := fun _ => Except.ok { Name := "app".toList },
        GetLogs := fun _ => ([], some "denied".toList), interrupted := false }
      { next := fun _ s => s, drawn := 0 }
      { Name := "web".toList, WorkingDir := [], ConfigPaths := [] }
      (recorder (fun _ _ => none) [])).2.1 "denied".toList (by decide) rfl).1,
   ((Logs_returns_setup_failure
      { ProjectFromOptions := fun _ => Except.ok { Name := "app".toList },
        GetLogs := fun _ => ([], some "denied".toList), interrupted := false }
      { next := fun _ s => s, drawn := 0 }
      { Name := [], WorkingDir := [], ConfigPaths := [] }
      (recorder (fun _ _ => none) [])).2.2.1 { Name := "app".toList } "denied".toList
        rfl rfl rfl).2,
   ((Logs_returns_setup_failure
      { ProjectFromOptions := fun _ => Except.ok { Name := "app".toList },
        GetLogs := fun _ => ([], none), interrupted := true }
      { next := fun _ s => s, drawn := 0 }
      { Name := "web".toList, WorkingDir := [], ConfigPaths := [] }
      (recorder (fun _ _ => none) [])).2.2.2 rfl).1⟩

theorem logsNamed_effects {σ : Type} (c : Collaborators) (loop : colorChan)
    (writer : ioWriter σ) (pre : List Effect) (name : GoString) :
    (logsNamed c loop writer pre name).effects = pre ++ [Effect.getLogs name]
    ∨ (logsNamed c loop writer pre name).effects =
        pre ++ [Effect.getLogs name, Effect.awaitInterrupt] := by
  obtain ⟨hfail, hok⟩ := logsNamed_spec c loop writer pre name
  cases hget : (c.GetLogs name).2 with
  | some err => exact Or.inl (hfail err hget).2
  | none => exact Or.inr (hok hget).2

/-- C7: `Logs` passes to `GetLogs` the name given in `options.Name` whenever it
is not empty, and then does not load the project: `GetLogs` with that name is
its first effect, no load is among its effects, and the run is the same
whatever the loader would have answered. Only when `options.Name` is empty does
it load the project, as its first effect, and when the load succeeds the one
call of `GetLogs` that follows gets the name of the loaded project. -/
theorem Logs_name_resolution {σ : Type} (c : Collaborators) (loop : colorChan)
    (options : ProjectOptions) (writer : ioWriter σ) :
    (options.Name ≠ [] →
      ((Logs c loop options writer).effects = [Effect.getLogs options.Name]
        ∨ (Logs c loop options writer).effects =
            [Effect.getLogs options.Name, Effect.awaitInterrupt])
      ∧ (∀ o, Effect.loadProject o ∉ (Logs c loop options writer).effects)
      ∧ (∀ loader : ProjectOptions → Except GoError Project,
          (Logs { c with ProjectFromOptions := loader } loop options writer).effects =
            (Logs c loop options writer).effects
          ∧ (Logs { c with ProjectFromOptions := loader } loop options writer).returned =
            (Logs c loop options writer).returned))
    ∧ (options.Name = [] →
      (Logs c loop options writer).effects.head? = some (Effect.loadProject options)
      ∧ (∀ project, c.ProjectFromOptions options = Except.ok project →
          ((Logs c loop options writer).effects =
              [Effect.loadProject options, Effect.getLogs project.Name]
            ∨ (Logs c loop options writer).effects =
              [Effect.loadProject options, Effect.getLogs project.Name,
               Effect.awaitInterrupt])
          ∧ (∀ name, Effect.getLogs name ∈ (Logs c loop options writer).effects →
              name = project.Name))) := by
  constructor
  · intro h
    have heff := logsNamed_effects c loop writer [] options.Name
    rw [← Logs_named c loop options writer h] at heff
    refine ⟨heff, ?_, ?_⟩
    · intro o hmem
      rcases heff with heff | heff <;> rw [heff] at hmem <;> simp at hmem
    · intro loader
      rw [Logs_named c loop options writer h, Logs_named _ loop options writer h]
      exact ⟨rfl, rfl⟩
  · intro h
    cases hload : c.ProjectFromOptions options with
    | error err =>
      rw [Logs_load_failed c loop options writer h err hload]
      refine ⟨rfl, ?_⟩
      intro project hp
      cases hp
    | ok project =>
      have heff := logsNamed_effects c loop writer [Effect.loadProject options] project.Name
      rw [← Logs_loaded c loop options writer h project hload] at heff
      constructor
      · rcases heff with heff | heff <;> rw [heff] <;> rfl
      · intro project2 hp
        cases hp
        refine ⟨heff, ?_⟩
        intro name hmem
        rcases heff with heff | heff <;> rw [heff] at hmem <;> simpa using hmem

/-- Witness of C7: a run with the name `web` given, and a run with no name
given whose load yields the project `app`. -/
theorem Logs_name_resolution_witness :
    ((Logs { ProjectFromOptions := fun _ => Except.ok { Name := "app".toList },
             GetLogs := fun _ => ([], none), interrupted := true }
        { next := fun _ s => s, drawn := 0 }
        { Name := "web".toList, WorkingDir := [], ConfigPaths := [] }
        (recorder (fun _ _ => none) [])).effects = [Effect.getLogs "web".toList]
      ∨ (Logs { ProjectFromOptions := fun _ => Except.ok { Name := "app".toList },
                GetLogs := fun _ => ([], none), interrupted := true }
        { next := fun _ s => s, drawn := 0 }
        { Name := "web".toList, WorkingDir := [], ConfigPaths := [] }
        (recorder (fun _ _ => none) [])).effects =
          [Effect.getLogs "web".toList, Effect.awaitInterrupt])
    ∧ (Logs { ProjectFromOptions := fun _ => Except.ok { Name := "app".toList },
              GetLogs := fun _ => ([], none), interrupted := true }
        { next := fun _ s => s, drawn := 0 }
        { Name := [], WorkingDir := [], ConfigPaths := [] }
        (recorder (fun _ _ => none) [])).effects.head? =
        some (Effect.loadProject { Name := [], WorkingDir := [], ConfigPaths := [] }) :=
  ⟨((Logs_name_resolution
      { ProjectFromOptions := fun _ => Except.ok { Name := "app".toList },
        GetLogs := fun _ => ([], none), interrupted := true }
      { next := fun _ s => s, drawn := 0 }
      { Name := "web".toList, WorkingDir := [], ConfigPaths := [] }
      (recorder (fun _ _ => none) [])).1 (by decide)).1,
   ((Logs_name_resolution
      { ProjectFromOptions := fun _ => Except.ok { Name := "app".toList },
        GetLogs := fun _ => ([], none), interrupted := true }
      { next := fun _ s => s, drawn := 0 }
      { Name := [], WorkingDir := [], ConfigPaths := [] }
      (recorder (fun _ _ => none) [])).2 rfl).1⟩

end Ecs

/-! ## The group converter -/

namespace Convert

open Ecs (GoString GoError Join Join_cons_cons)

theorem convertService_ok (env : Env) (s : ServiceConfig) (c : Container)
    (h : convertService env s = Except.ok c) : c.Name = s.Name ∧ c.Image = s.Image := by
  unfold convertService at h
  split at h
  · cases h
    exact ⟨rfl, rfl⟩
  · split at h
    · cases h
    · cases h
      exact ⟨rfl, rfl⟩

theorem convertServices_ok (env : Env) (services : List ServiceConfig) (cs : List Container)
    (h : convertServices env services = Except.ok cs) :
    cs.length = services.length
    ∧ cs.map Container.Name = services.map ServiceConfig.Name
    ∧ cs.map Container.Image = services.map ServiceConfig.Image := by
  induction services generalizing cs with
  | nil =>
    simp only [convertServices] at h
    cases h
    exact ⟨rfl, rfl, rfl⟩
  | cons s rest ih =>
    unfold convertServices at h
    split at h
    · cases h
    · rename_i c hc
      split at h
      · cases h
      · rename_i cs2 hcs2
        cases h
        obtain ⟨h1, h2, h3⟩ := ih cs2 hcs2
        obtain ⟨g1, g2⟩ := convertService_ok env s c hc
        simp [h1, h2, h3, g1, g2]

/-- The conversion succeeds on a project whose services declare no limits. -/
theorem convertServices_no_limits (env : Env) (services : List ServiceConfig)
    (h : ∀ s ∈ services, s.Limits = none) :
    ∃ cs, convertServices env services = Except.ok cs := by
  induction services with
  | nil => exact ⟨[], rfl⟩
  | cons s rest ih =>
    obtain ⟨cs, hcs⟩ := ih (fun t ht => h t (List.mem_cons_of_mem _ ht))
    have hs : s.Limits = none := h s (List.mem_cons_self _ _)
    refine ⟨{ Name := s.Name, Image := s.Image, Command := s.Command, Ports := s.Ports,
              Limits := none } :: cs, ?_⟩
    simp only [convertServices, convertService, hs, hcs]

theorem ToContainerGroup_ok (env : Env) (aciContext : AciContext) (p : Project)
    (g : ContainerGroup) (h : ToContainerGroup env aciContext p = Except.ok g) :
    ∃ cs, convertServices env p.Services = Except.ok cs
      ∧ g.Containers =
          if p.Services.length > 1 then
            cs ++ [getDNSSidecar env (p.Services.map ServiceConfig.Name)]
          else cs := by
  unfold ToContainerGroup at h
  split at h
  · cases h
  · rename_i cs hcs
    cases h
    exact ⟨cs, hcs, rfl⟩

theorem Join_append_first (a b : GoString) (rest : List GoString) (sep : Char) :
    Join ((a ++ b) :: rest) sep = a ++ Join (b :: rest) sep := by
  cases rest with
  | nil => simp [Join]
  | cons e rest => simp [Join_cons_cons]

theorem echoClause_ne_nil (name : GoString) : echoClause name ≠ [] := by
  simp [echoClause]

theorem sidecar_foldl (names : List GoString) (acc : GoString) (hacc : acc ≠ []) :
    names.foldl (fun expr name => (if expr = [] then [] else expr ++ [';']) ++ echoClause name)
        acc =
      Join (acc :: names.map echoClause) ';' := by
  induction names generalizing acc with
  | nil => simp [Join]
  | cons n ns ih =>
    rw [List.foldl_cons, if_neg hacc, ih _ (by simp [echoClause_ne_nil])]
    rw [List.map_cons, List.append_assoc, Join_append_first, Join_append_first,
      Join_cons_cons]
    rfl

/-- The shell expression in closed form: the clauses joined by `;`, then
`;sleep infinity`. -/
theorem sidecarExpr_eq (names : List GoString) :
    sidecarExpr names = Join (names.map echoClause) ';' ++ ";sleep infinity".toList := by
  cases names with
  | nil => simp [sidecarExpr, Join]
  | cons n ns =>
    unfold sidecarExpr
    rw [List.foldl_cons, if_pos rfl, List.nil_append, sidecar_foldl ns _ (echoClause_ne_nil n)]
    rfl

/-- C8: for every project with N >= 2 services that `ToContainerGroup` converts
without error, the group has exactly N+1 containers: container `i`, for
`i < N`, carries the name and the image of service `i` of the project, and the
last container, at index N, is the sidecar, named `ComposeDNSSidecarName` with
image `dnsSidecarImage`. -/
theorem ToContainerGroup_sidecar_last (env : Env) (aciContext : AciContext) (p : Project)
    (g : ContainerGroup) (hN : 2 ≤ p.Services.length)
    (hok : ToContainerGroup env aciContext p = Except.ok g) :
    g.Containers.length = p.Services.length + 1
    ∧ (∀ i, i < p.Services.length →
        (g.Containers[i]?).map Container.Name = (p.Services[i]?).map ServiceConfig.Name
        ∧ (g.Containers[i]?).map Container.Image = (p.Services[i]?).map ServiceConfig.Image)
    ∧ (g.Containers.take p.Services.length).map Container.Name =
        p.Services.map ServiceConfig.Name
    ∧ (g.Containers.take p.Services.length).map Container.Image =
        p.Services.map ServiceConfig.Image
    ∧ ∃ sidecar, g.Containers.getLast? = some sidecar
        ∧ g.Containers[p.Services.length]? = some sidecar
        ∧ sidecar.Name = env.ComposeDNSSidecarName
        ∧ sidecar.Image = env.dnsSidecarImage := by
  obtain ⟨cs, hcs, hg⟩ := ToContainerGroup_ok env aciContext p g hok
  obtain ⟨hlen, hnames, himages⟩ := convertServices_ok env p.Services cs hcs
  rw [if_pos (by omega)] at hg
  rw [hg]
  refine ⟨by simp [hlen], ?_, ?_, ?_, ?_⟩
  · intro i hi
    have hi2 : i < cs.length := by omega
    rw [List.getElem?_append_left hi2, ← List.getElem?_map, ← List.getElem?_map,
      ← List.getElem?_map, ← List.getElem?_map, hnames, himages]
    exact ⟨rfl, rfl⟩
  · rw [← hlen, List.take_left, hnames]
  · rw [← hlen, List.take_left, himages]
  · refine ⟨getDNSSidecar env (p.Services.map ServiceConfig.Name), by simp, ?_, rfl, rfl⟩
    rw [← hlen]
    simp

/-- Witness of C8: the project of the test, `service1` and `service2`. -/
theorem ToContainerGroup_sidecar_last_witness :
    (2 ≤ twoServiceProject.Services.length)
    ∧ (({ Name := [], Location := "eu".toList,
          Containers :=
            [{ Name := "service1".toList, Image := "image1".toList, Command := [],
               Ports := [], Limits := none },
             { Name := "service2".toList, Image := "image2".toList, Command := [],
               Ports := [], Limits := none },
             getDNSSidecar sampleEnv ["service1".toList, "service2".toList]] } :
          ContainerGroup).Containers.length = twoServiceProject.Services.length + 1) :=
  ⟨by decide,
   (ToContainerGroup_sidecar_last sampleEnv suiteCtx twoServiceProject
      { Name := [], Location := "eu".toList,
        Containers :=
          [{ Name := "service1".toList, Image := "image1".toList, Command := [],
             Ports := [], Limits := none },
           { Name := "service2".toList, Image := "image2".toList, Command := [],
             Ports := [], Limits := none },
           getDNSSidecar sampleEnv ["service1".toList, "service2".toList]] }
      (by decide) rfl).1⟩

/-- C9: for every project with N >= 2 services that `ToContainerGroup`
converts, the sidecar, the last container of the group, has the command
`["sh", "-c", E]`, where `E` is the clauses `echo 127.0.0.1 <name> >> /etc/hosts`
of the services, in declaration order, joined by `;`, followed by
`;sleep infinity`. For the services `service1`, `service2` the expression is
`echo 127.0.0.1 service1 >> /etc/hosts;echo 127.0.0.1 service2 >> /etc/hosts;sleep infinity`. -/
theorem ToContainerGroup_sidecar_command (env : Env) (aciContext : AciContext) (p : Project)
    (g : ContainerGroup) (hN : 2 ≤ p.Services.length)
    (hok : ToContainerGroup env aciContext p = Except.ok g) :
    ∃ sidecar, g.Containers.getLast? = some sidecar
      ∧ sidecar.Command =
          ["sh".toList, "-c".toList,
            Join (p.Services.map (fun s =>
                "echo 127.0.0.1 ".toList ++ s.Name ++ " >> /etc/hosts".toList)) ';'
              ++ ";sleep infinity".toList]
      ∧ (p.Services.map ServiceConfig.Name = ["service1".toList, "service2".toList] →
          sidecar.Command =
            ["sh".toList, "-c".toList,
              ("echo 127.0.0.1 service1 >> /etc/hosts;echo 127.0.0.1 service2 >> /etc/hosts;"
                ++ "sleep infinity").toList]) := by
  obtain ⟨cs, hcs, hg⟩ := ToContainerGroup_ok env aciContext p g hok
  rw [if_pos (by omega)] at hg
  refine ⟨getDNSSidecar env (p.Services.map ServiceConfig.Name), by simp [hg], ?_, ?_⟩
  · simp only [getDNSSidecar, sidecarExpr_eq, List.map_map]
    rfl
  · intro hnames
    simp only [getDNSSidecar, hnames, sidecarExpr_eq]
    decide

/-- Witness of C9: the project of the test, `service1` and `service2`. -/
theorem ToContainerGroup_sidecar_command_witness :
    ∃ sidecar,
      ({ Name := [], Location := "eu".toList,
         Containers :=
           [{ Name := "service1".toList, Image := "image1".toList, Command := [],
              Ports := [], Limits := none },
            { Name := "service2".toList, Image := "image2".toList, Command := [],
              Ports := [], Limits := none },
            getDNSSidecar sampleEnv ["service1".toList, "service2".toList]] } :
          ContainerGroup).Containers.getLast? = some sidecar
      ∧ sidecar.Command =
          ["sh".toList, "-c".toList,
            ("echo 127.0.0.1 service1 >> /etc/hosts;echo 127.0.0.1 service2 >> /etc/hosts;"
              ++ "sleep infinity").toList] :=
  (ToContainerGroup_sidecar_command sampleEnv suiteCtx twoServiceProject
      { Name := [], Location := "eu".toList,
        Containers :=
          [{ Name := "service1".toList, Image := "image1".toList, Command := [],
             Ports := [], Limits := none },
           { Name := "service2".toList, Image := "image2".toList, Command := [],
             Ports := [], Limits := none },
           getDNSSidecar sampleEnv ["service1".toList, "service2".toList]] }
      (by decide) rfl).imp (fun _ h => ⟨h.1, h.2.2 rfl⟩)

/-- C10: for every project with exactly one service that `ToContainerGroup`
converts without error, the group has exactly one container, the container spec
of that service, whose name and image are the name and image of the service;
no sidecar is added. -/
theorem ToContainerGroup_single_service (env : Env) (aciContext : AciContext) (p : Project)
    (s : ServiceConfig) (g : ContainerGroup) (hone : p.Services = [s])
    (hok : ToContainerGroup env aciContext p = Except.ok g) :
    g.Containers.length = 1
    ∧ ∃ c, g.Containers = [c] ∧ convertService env s = Except.ok c
        ∧ c.Name = s.Name ∧ c.Image = s.Image := by
  obtain ⟨cs, hcs, hg⟩ := ToContainerGroup_ok env aciContext p g hok
  rw [hone] at hcs hg
  rw [if_neg (by simp)] at hg
  unfold convertServices at hcs
  split at hcs
  · cases hcs
  · rename_i c hc
    simp only [convertServices] at hcs
    cases hcs
    obtain ⟨h1, h2⟩ := convertService_ok env s c hc
    rw [hg]
    exact ⟨rfl, c, rfl, hc, h1, h2⟩

/-- Witness of C10: the project of the test, `service1` alone. -/
theorem ToContainerGroup_single_service_witness :
    ({ Name := [], Location := "eu".toList,
       Containers :=
         [{ Name := "service1".toList, Image := "image1".toList, Command := [],
            Ports := [], Limits := none }] } : ContainerGroup).Containers.length = 1 :=
  (ToContainerGroup_single_service sampleEnv suiteCtx singleServiceProject
      { Name := "service1".toList, Image := "image1".toList, Command := [], Ports := [],
        Limits := none }
      { Name := [], Location := "eu".toList,
        Containers :=
          [{ Name := "service1".toList, Image := "image1".toList, Command := [],
             Ports := [], Limits := none }] }
      rfl rfl).1

end Convert

/-! ## The group name and the view mapper -/

namespace Convert

open Ecs (GoString GoError Join)

theorem ToContainerGroup_name_of_ok (env : Env) (aciContext : AciContext) (p : Project)
    (g : ContainerGroup) (h : ToContainerGroup env aciContext p = Except.ok g) :
    g.Name = ToLower env.unicode p.Name ∧ g.Location = aciContext.Location := by
  unfold ToContainerGroup at h
  split at h
  · cases h
  · cases h
    exact ⟨rfl, rfl⟩

/-- On a name of ASCII characters the lowercase form is the usual one, whatever
the case table. -/
theorem ToLower_ascii (table : CaseTable) (s : GoString) (h : ∀ c ∈ s, c.toNat < 128) :
    ToLower table s = s.map Char.toLower := by
  unfold ToLower
  exact List.map_congr_left (fun c hc => table.ascii c (h c hc))

theorem ToLower_TEST (table : CaseTable) : ToLower table "TEST".toList = "test".toList := by
  rw [ToLower_ascii table "TEST".toList (by decide)]
  decide

theorem ToLower_ECOLE (table : CaseTable) :
    ToLower table "ÉCOLE".toList = "école".toList := by
  have h1 := table.latin1 'É' (by decide) (by decide) (by decide)
  have h2 := table.ascii 'C' (by decide)
  have h3 := table.ascii 'O' (by decide)
  have h4 := table.ascii 'L' (by decide)
  have h5 := table.ascii 'E' (by decide)
  show [table.lower 'É', table.lower 'C', table.lower 'O', table.lower 'L', table.lower 'E']
    = "école".toList
  rw [h1, h2, h3, h4, h5]
  decide

/-- C11: for every project that `ToContainerGroup` converts without error the
name of the group is the lowercase form of the project name: it has as many
runes, each the lowercase, in the case table of Unicode, of the rune at its
place; on a name of ASCII characters that is the name with `A` to `Z` replaced
by `a` to `z`. A project with no services is converted, to a group with that
name and no container; the project name `TEST` gives the group name `test`, and
`ÉCOLE` gives `école`; and the name is not validated, an empty project name
giving an empty group name. -/
theorem ToContainerGroup_name_lowercase (env : Env) (aciContext : AciContext) (p : Project)
    (g : ContainerGroup) (hok : ToContainerGroup env aciContext p = Except.ok g) :
    g.Name = ToLower env.unicode p.Name
    ∧ g.Name = p.Name.map env.unicode.lower
    ∧ g.Name.length = p.Name.length
    ∧ (∀ (i : Nat) (c : Char), p.Name[i]? = some c → g.Name[i]? = some (env.unicode.lower c))
    ∧ ((∀ c ∈ p.Name, c.toNat < 128) → g.Name = p.Name.map Char.toLower)
    ∧ (p.Name = [] → g.Name = [])
    ∧ (p.Name = "TEST".toList → g.Name = "test".toList)
    ∧ (p.Name = "ÉCOLE".toList → g.Name = "école".toList)
    ∧ (∀ name : GoString,
        ToContainerGroup env aciContext { Name := name, Services := [] } =
          Except.ok
            { Name := name.map env.unicode.lower, Location := aciContext.Location,
              Containers := [] })
    ∧ ToContainerGroup env aciContext { Name := "TEST".toList, Services := [] } =
        Except.ok { Name := "test".toList, Location := aciContext.Location, Containers := [] }
    ∧ ToContainerGroup env aciContext { Name := [], Services := [] } =
        Except.ok { Name := [], Location := aciContext.Location, Containers := [] } := by
  obtain ⟨hname, _⟩ := ToContainerGroup_name_of_ok env aciContext p g hok
  have hnone : ∀ name : GoString,
      ToContainerGroup env aciContext { Name := name, Services := [] } =
        Except.ok
          { Name := ToLower env.unicode name, Location := aciContext.Location,
            Containers := [] } := fun _ => rfl
  refine ⟨hname, hname, ?_, ?_, ?_, ?_, ?_, ?_, hnone, ?_, hnone []⟩
  · rw [hname, ToLower, List.length_map]
  · intro i c hc
    rw [hname, ToLower, List.getElem?_map, hc]
    rfl
  · intro hascii
    rw [hname, ToLower_ascii _ _ hascii]
  · intro h0
    rw [hname, h0]
    rfl
  · intro h0
    rw [hname, h0, ToLower_TEST]
  · intro h0
    rw [hname, h0, ToLower_ECOLE]
  · rw [hnone, ToLower_TEST]

/-- Witness of C11: the project of `TestProjectName`, named `TEST`, with no
service, and a project named `ÉCOLE`, with the case table of the examples. -/
theorem ToContainerGroup_name_lowercase_witness :
    ({ Name := "test".toList, Location := "eu".toList, Containers := [] } :
        ContainerGroup).Name = ToLower sampleEnv.unicode "TEST".toList
    ∧ ({ Name := "école".toList, Location := "eu".toList, Containers := [] } :
        ContainerGroup).Name = "ÉCOLE".toList.map sampleEnv.unicode.lower
    ∧ ({ Name := "test".toList, Location := "eu".toList, Containers := [] } :
        ContainerGroup).Name = "test".toList :=
  ⟨(ToContainerGroup_name_lowercase sampleEnv suiteCtx { Name := "TEST".toList, Services := [] }
      { Name := "test".toList, Location := "eu".toList, Containers := [] } rfl).1,
   (ToContainerGroup_name_lowercase sampleEnv suiteCtx
      { Name := "ÉCOLE".toList, Services := [] }
      { Name := "école".toList, Location := "eu".toList, Containers := [] } rfl).2.1,
   (ToContainerGroup_name_lowercase sampleEnv suiteCtx { Name := "TEST".toList, Services := [] }
      { Name := "test".toList, Location := "eu".toList, Containers := [] } rfl).2.2.2.2.2.2.1
      rfl⟩

theorem ContainerGroupToContainer_ok (containerID : GoString) (cg : GroupState)
    (cc : ContainerState) (view : ContainerView)
    (h : ContainerGroupToContainer containerID cg cc = Except.ok view) :
    ∃ name image, cc.Name = some name ∧ cc.Image = some image
      ∧ view =
        { ID := containerID
          Status := cc.State.getD []
          Image := image
          Command := Join cc.Command ' '
          MemoryLimit := cc.MemoryInGB
          Ports := ToPorts cg.IPAddress cc.Ports } := by
  unfold ContainerGroupToContainer at h
  split at h
  · rename_i name image hname himage
    cases h
    exact ⟨name, image, hname, himage, rfl⟩
  · cases h

theorem ContainerGroupToContainer_of_named (containerID : GoString) (cg : GroupState)
    (cc : ContainerState) (name image : GoString) (hname : cc.Name = some name)
    (himage : cc.Image = some image) :
    ContainerGroupToContainer containerID cg cc =
      Except.ok
        { ID := containerID
          Status := cc.State.getD []
          Image := image
          Command := Join cc.Command ' '
          MemoryLimit := cc.MemoryInGB
          Ports := ToPorts cg.IPAddress cc.Ports } := by
  simp only [ContainerGroupToContainer, hname, himage]

/-- C12: `ContainerGroupToContainer` returns a view for every container that has
a name and an image. When the group has an IP address, the port list of the
view has one mapping per port declared by the container, in order, each with
`HostIP` the IP of the group, `HostPort` and `ContainerPort` the declared port,
and `Protocol` the declared protocol, `tcp` when none is specified; when the
group has no IP address the view has no ports. For the group with IP
`42.42.42.42` and the container with port 80 of the test, the view is the one
the test expects, with the single mapping of port 80 to port 80 over `tcp` at
`42.42.42.42`. -/
theorem ContainerGroupToContainer_ports (containerID : GoString) (cg : GroupState)
    (cc : ContainerState) :
    (∀ name image, cc.Name = some name → cc.Image = some image →
      ∃ view, ContainerGroupToContainer containerID cg cc = Except.ok view)
    ∧ (∀ view, ContainerGroupToContainer containerID cg cc = Except.ok view →
        (∀ ip, cg.IPAddress = some ip →
          view.Ports.length = cc.Ports.length
          ∧ view.Ports.map PortMapping.ContainerPort = cc.Ports.map ContainerPort.Port
          ∧ (∀ (i : Nat) (p : ContainerPort), cc.Ports[i]? = some p →
              ∃ m : PortMapping, view.Ports[i]? = some m
                ∧ m.HostIP = ip.IP ∧ m.HostPort = p.Port ∧ m.ContainerPort = p.Port
                ∧ (p.Protocol = none → m.Protocol = "tcp".toList)
                ∧ (∀ proto, p.Protocol = some proto → m.Protocol = proto)))
        ∧ (cg.IPAddress = none → view.Ports = []))
    ∧ ContainerGroupToContainer "myContainerID".toList myContainerGroup myContainer =
        Except.ok expectedContainer
    ∧ expectedContainer.Ports =
        [{ HostPort := 80, ContainerPort := 80, Protocol := "tcp".toList,
           HostIP := "42.42.42.42".toList }] := by
  refine ⟨?_, ?_, rfl, rfl⟩
  · intro name image hname himage
    exact ⟨_, ContainerGroupToContainer_of_named containerID cg cc name image hname himage⟩
  · intro view hview
    obtain ⟨name, image, _, _, hv⟩ := ContainerGroupToContainer_ok containerID cg cc view hview
    subst hv
    constructor
    · intro ip hip
      simp only [hip, ToPorts]
      refine ⟨by simp, by simp [Function.comp_def], ?_⟩
      intro i p hp
      refine ⟨{ HostPort := p.Port, ContainerPort := p.Port,
                Protocol := p.Protocol.getD "tcp".toList, HostIP := ip.IP },
        by simp [hp], rfl, rfl, rfl, ?_, ?_⟩
      · intro hnone
        simp [hnone]
      · intro proto hproto
        simp [hproto]
    · intro hnone
      simp only [hnone, ToPorts]

/-- Witness of C12: the group and the container of `TestContainerGroupToContainer`. -/
theorem ContainerGroupToContainer_ports_witness :
    (∃ view, ContainerGroupToContainer "myContainerID".toList myContainerGroup myContainer =
        Except.ok view)
    ∧ expectedContainer.Ports.length = myContainer.Ports.length
    ∧ (ContainerGroupToContainer "id".toList { IPAddress := none } myContainer =
          Except.ok
            { ID := "id".toList, Status := "Running".toList, Image := "sha256:666".toList,
              Command := "mycommand".toList, MemoryLimit := some 9, Ports := [] }
        ∧ ([] : List PortMapping) = []) :=
  ⟨(ContainerGroupToContainer_ports "myContainerID".toList myContainerGroup myContainer).1
      "myContainerID".toList "sha256:666".toList rfl rfl,
   (((ContainerGroupToContainer_ports "myContainerID".toList myContainerGroup myContainer).2.1
      expectedContainer rfl).1 { IP := "42.42.42.42".toList, Ports := [80] } rfl).1,
   ⟨rfl,
    ((ContainerGroupToContainer_ports "id".toList { IPAddress := none } myContainer).2.1
      { ID := "id".toList, Status := "Running".toList, Image := "sha256:666".toList,
        Command := "mycommand".toList, MemoryLimit := some 9, Ports := [] } rfl).2 rfl⟩⟩

end Convert

/-! ## Later calls: padding, colors and width over a session -/

namespace Ecs

theorem buffer_state (content : GoString) : (buffer content).state = content := rfl

theorem sprintfLine_fun (colored : GoString) :
    sprintfLine colored = fun line => colored ++ ' ' :: (line ++ ['\n']) := by
  funext line
  simp [sprintfLine]

theorem foldl_writeLine_buffer (cf : colorFunc) (pfx : GoString) (segs : List GoString)
    (content : GoString) :
    segs.foldl (writeLine cf pfx) (buffer content) =
      buffer (content ++ (segs.map (sprintfLine (cf pfx))).flatten) := by
  induction segs generalizing content with
  | nil => simp
  | cons seg rest ih =>
    have step : writeLine cf pfx (buffer content) seg =
        buffer (content ++ sprintfLine (cf pfx) seg) := rfl
    rw [List.foldl_cons, step, ih]
    simp

/-- One `Log` call, on any consumer: the color function it renders with is the
one `colors` holds for the service after the call, and the service column is
formatted with the width after the call. -/
theorem Log_writer_eq {σ : Type} (loop : colorChan) (l : logConsumer σ)
    (service container message : GoString) :
    ∃ cf : colorFunc,
      (Log loop l service container message).2.colors.get service = some cf
      ∧ (Log loop l service container message).2.writer =
          (Split message '\n').foldl
            (writeLine cf
              (sprintfPrefix (Log loop l service container message).2.width service))
            l.writer := by
  cases h : GoMap.get l.colors service with
  | some cf =>
    rw [Log_known _ _ _ _ _ cf h]
    exact ⟨cf, h, rfl⟩
  | none =>
    rw [Log_new _ _ _ _ _ h]
    exact ⟨loop.next loop.drawn, GoMap.get_set_self _ _ _, rfl⟩

theorem LogAll_writer_buffer (content : GoString) (loop : colorChan)
    (l : logConsumer GoString) (hw : l.writer = buffer content) (events : List LogEvent) :
    ∃ added, (LogAll loop l events).2.writer = buffer (content ++ added) := by
  induction events using List.reverseRecOn with
  | nil => exact ⟨[], by rw [LogAll_nil, List.append_nil]; exact hw⟩
  | append_singleton events e ih =>
    obtain ⟨added, hadded⟩ := ih
    rw [LogAll_snoc]
    obtain ⟨cf, _, hwr⟩ := Log_writer_eq (LogAll loop l events).1 (LogAll loop l events).2
      e.service e.container e.message
    rw [hwr, hadded, foldl_writeLine_buffer, List.append_assoc]
    exact ⟨_, rfl⟩

/-- A color that `colors` holds is not replaced by a `Log` call. -/
theorem Log_get_stable {σ : Type} (loop : colorChan) (l : logConsumer σ)
    (service container message t : GoString) (cf : colorFunc)
    (ht : l.colors.get t = some cf) :
    (Log loop l service container message).2.colors.get t = some cf := by
  obtain ⟨hknown, hnew⟩ := Log_state loop l service container message
  cases h : GoMap.get l.colors service with
  | some cf2 =>
    rw [(hknown cf2 h).2.1]
    exact ht
  | none =>
    rw [(hnew h).2.1]
    have hne : t ≠ service := by
      intro heq
      rw [heq, h] at ht
      cases ht
    rw [GoMap.get_set_ne _ _ _ _ hne]
    exact ht

theorem LogAll_get_stable {σ : Type} (loop : colorChan) (l : logConsumer σ)
    (events : List LogEvent) (t : GoString) (cf : colorFunc)
    (ht : l.colors.get t = some cf) :
    (LogAll loop l events).2.colors.get t = some cf := by
  induction events using List.reverseRecOn with
  | nil => exact ht
  | append_singleton events e ih =>
    rw [LogAll_snoc]
    exact Log_get_stable _ _ _ _ _ t cf ih

theorem LogAll_append {σ : Type} (loop : colorChan) (l : logConsumer σ)
    (events more : List LogEvent) :
    LogAll loop l (events ++ more) =
      LogAll (LogAll loop l events).1 (LogAll loop l events).2 more := by
  simp [LogAll, List.foldl_append]

theorem LogAll_buffer_state_append (content : GoString) (loop : colorChan)
    (l : logConsumer GoString) (hw : l.writer = buffer content) (events : List LogEvent) :
    l.writer.state <+: (LogAll loop l events).2.writer.state := by
  obtain ⟨added, hadded⟩ := LogAll_writer_buffer content loop l hw events
  rw [hadded, hw, buffer_state, buffer_state]
  exact List.prefix_append _ _

theorem Log_buffer_state_append (content : GoString) (loop : colorChan)
    (l : logConsumer GoString) (hw : l.writer = buffer content)
    (service container message : GoString) :
    l.writer.state <+: (Log loop l service container message).2.writer.state :=
  LogAll_buffer_state_append content loop l hw
    [{ service := service, container := container, message := message }]

/-- The width once a service `s` at least as long as every other one has been
seen. -/
theorem LogAll_fresh_width_of_longest {σ : Type} (loop : colorChan) (writer : ioWriter σ)
    (events : List LogEvent) (s : GoString) (hs : s ∈ events.map LogEvent.service)
    (hle : ∀ e ∈ events, len e.service ≤ len s) :
    (LogAll loop (newConsumer writer) events).2.width = (len s : Int) + 3 := by
  have hne : events ≠ [] := by
    intro h0
    rw [h0] at hs
    cases hs
  obtain ⟨h1, e, he, h2⟩ := LogAll_fresh_width loop writer events hne
  obtain ⟨e2, he2, hes⟩ := List.mem_map.mp hs
  have a := h1 e2 he2
  have b := hle e he
  rw [hes] at a
  omega

/-- The width before a service longer than every one seen so far arrives. -/
theorem LogAll_fresh_width_lt {σ : Type} (loop : colorChan) (writer : ioWriter σ)
    (events : List LogEvent) (s : GoString) (hlt : ∀ e ∈ events, len e.service < len s) :
    (LogAll loop (newConsumer writer) events).2.width < (len s : Int) + 3 := by
  by_cases hne : events = []
  · obtain ⟨_, _, _, _, h0, _⟩ := LogAll_fresh_inv loop writer events
    rw [h0 hne]
    omega
  · obtain ⟨_, e, he, h2⟩ := LogAll_fresh_width loop writer events hne
    have := hlt e he
    omega

/-- C13, amended: when `Log` first sees a service `s` whose name is longer than
every name seen before and shorter than 10000007 bytes, so that `fmt` parses
the new width, the width grows to `len s + 3`, and every line written
afterwards, as long as no longer name arrives, is padded to that width,
whatever the service `t` it is for, a service seen before `s` with a shorter
name included; whatever comes later, a line written after that call is padded
to the width of its time, which is `len s + 3` at least, as long as that width
is below 10000010. The output already
written is left as it was: with a sink that appends, the content before a `Log`
call is the beginning of the content after it, on every consumer state, so the
lines written before the call for `s` keep their narrower padding. -/
theorem longer_name_widens_later_lines_only (loop : colorChan) (content : GoString)
    (events more : List LogEvent) (s c m t c2 m2 : GoString)
    (hnew : ∀ e ∈ events, len e.service < len s)
    (hmore : ∀ e ∈ more, len e.service ≤ len s)
    (ht : len t ≤ len s)
    (hfit : len s < 10000007) :
    (LogAll loop (newConsumer (buffer content)) events).2.width < (len s : Int) + 3
    ∧ (Log (LogAll loop (newConsumer (buffer content)) events).1 (LogAll loop (newConsumer (buffer content)) events).2 s c m).2.width = (len s : Int) + 3
    ∧ (LogAll loop (newConsumer (buffer content)) (events ++ { service := s, container := c, message := m } :: more)).2.width = (len s : Int) + 3
    ∧ (Log (LogAll loop (newConsumer (buffer content)) (events ++ { service := s, container := c, message := m } :: more)).1 (LogAll loop (newConsumer (buffer content)) (events ++ { service := s, container := c, message := m } :: more)).2 t c2 m2).2.width = (len s : Int) + 3
    ∧ (∃ cf : colorFunc,
        (Log (LogAll loop (newConsumer (buffer content)) (events ++ { service := s, container := c, message := m } :: more)).1 (LogAll loop (newConsumer (buffer content)) (events ++ { service := s, container := c, message := m } :: more)).2 t c2 m2).2.colors.get t = some cf
        ∧ (Log (LogAll loop (newConsumer (buffer content)) (events ++ { service := s, container := c, message := m } :: more)).1 (LogAll loop (newConsumer (buffer content)) (events ++ { service := s, container := c, message := m } :: more)).2 t c2 m2).2.writer.state =
            (LogAll loop (newConsumer (buffer content)) (events ++ { service := s, container := c, message := m } :: more)).2.writer.state ++
              ((Split m2 '\n').map (fun line =>
                cf (t ++ List.replicate (len s + 3 - t.length) ' ' ++ [' ', '|'])
                  ++ ' ' :: line ++ ['\n'])).flatten)
    ∧ (LogAll loop (newConsumer (buffer content)) events).2.writer.state <+: (Log (LogAll loop (newConsumer (buffer content)) events).1 (LogAll loop (newConsumer (buffer content)) events).2 s c m).2.writer.state
    ∧ (Log (LogAll loop (newConsumer (buffer content)) events).1 (LogAll loop (newConsumer (buffer content)) events).2 s c m).2.writer.state <+: (LogAll loop (newConsumer (buffer content)) (events ++ { service := s, container := c, message := m } :: more)).2.writer.state
    ∧ (LogAll loop (newConsumer (buffer content)) (events ++ { service := s, container := c, message := m } :: more)).2.writer.state <+: (Log (LogAll loop (newConsumer (buffer content)) (events ++ { service := s, container := c, message := m } :: more)).1 (LogAll loop (newConsumer (buffer content)) (events ++ { service := s, container := c, message := m } :: more)).2 t c2 m2).2.writer.state
    ∧ (∀ (colors : GoMap colorFunc) (width : Int) (loop2 : colorChan)
        (content2 s2 c3 m3 : GoString),
        content2 <+:
          (Log loop2 { colors := colors, width := width, writer := buffer content2 }
            s2 c3 m3).2.writer.state)
    ∧ (∀ (later : List LogEvent) (t3 c4 m4 : GoString),
        (len s : Int) + 3 ≤ (Log (LogAll loop (newConsumer (buffer content)) (events ++ { service := s, container := c, message := m } :: later)).1 (LogAll loop (newConsumer (buffer content)) (events ++ { service := s, container := c, message := m } :: later)).2 t3 c4 m4).2.width
        ∧ ((Log (LogAll loop (newConsumer (buffer content)) (events ++ { service := s, container := c, message := m } :: later)).1 (LogAll loop (newConsumer (buffer content)) (events ++ { service := s, container := c, message := m } :: later)).2 t3 c4 m4).2.width < 10000010 →
          ∃ cf : colorFunc,
          (Log (LogAll loop (newConsumer (buffer content)) (events ++ { service := s, container := c, message := m } :: later)).1 (LogAll loop (newConsumer (buffer content)) (events ++ { service := s, container := c, message := m } :: later)).2 t3 c4 m4).2.writer.state =
            (LogAll loop (newConsumer (buffer content)) (events ++ { service := s, container := c, message := m } :: later)).2.writer.state ++
              ((Split m4 '\n').map (fun line =>
                cf (t3 ++ List.replicate ((Log (LogAll loop (newConsumer (buffer content)) (events ++ { service := s, container := c, message := m } :: later)).1 (LogAll loop (newConsumer (buffer content)) (events ++ { service := s, container := c, message := m } :: later)).2 t3 c4 m4).2.width.toNat - t3.length) ' ' ++ [' ', '|'])
                  ++ ' ' :: line ++ ['\n'])).flatten)) := by
  have e0 : (Log (LogAll loop (newConsumer (buffer content)) events).1 (LogAll loop (newConsumer (buffer content)) events).2 s c m) =
      LogAll loop (newConsumer (buffer content)) (events ++ [{ service := s, container := c, message := m }]) :=
    (LogAll_snoc loop (newConsumer (buffer content)) events { service := s, container := c, message := m }).symm
  have e2 : (Log (LogAll loop (newConsumer (buffer content)) (events ++ { service := s, container := c, message := m } :: more)).1 (LogAll loop (newConsumer (buffer content)) (events ++ { service := s, container := c, message := m } :: more)).2 t c2 m2) =
      LogAll loop (newConsumer (buffer content))
        ((events ++ { service := s, container := c, message := m } :: more) ++
          [{ service := t, container := c2, message := m2 }]) :=
    (LogAll_snoc loop (newConsumer (buffer content)) _ { service := t, container := c2, message := m2 }).symm
  have e1 : (LogAll loop (newConsumer (buffer content)) (events ++ { service := s, container := c, message := m } :: more)) =
      LogAll (Log (LogAll loop (newConsumer (buffer content)) events).1 (LogAll loop (newConsumer (buffer content)) events).2 s c m).1 (Log (LogAll loop (newConsumer (buffer content)) events).1 (LogAll loop (newConsumer (buffer content)) events).2 s c m).2 more := by
    rw [e0, ← LogAll_append, List.append_assoc]
    rfl
  have w0 := LogAll_fresh_width_lt loop (buffer content) events s hnew
  have w1 : (Log (LogAll loop (newConsumer (buffer content)) events).1 (LogAll loop (newConsumer (buffer content)) events).2 s c m).2.width = (len s : Int) + 3 := by
    rw [e0]
    apply LogAll_fresh_width_of_longest
    · simp
    · intro e he
      rcases List.mem_append.mp he with h | h
      · exact Nat.le_of_lt (hnew e h)
      · rw [List.mem_singleton.mp h]
  have w2 : (LogAll loop (newConsumer (buffer content)) (events ++ { service := s, container := c, message := m } :: more)).2.width = (len s : Int) + 3 := by
    apply LogAll_fresh_width_of_longest
    · simp
    · intro e he
      rcases List.mem_append.mp he with h | h
      · exact Nat.le_of_lt (hnew e h)
      · rcases List.mem_cons.mp h with h | h
        · rw [h]
        · exact hmore e h
  have w3 : (Log (LogAll loop (newConsumer (buffer content)) (events ++ { service := s, container := c, message := m } :: more)).1 (LogAll loop (newConsumer (buffer content)) (events ++ { service := s, container := c, message := m } :: more)).2 t c2 m2).2.width = (len s : Int) + 3 := by
    rw [e2]
    apply LogAll_fresh_width_of_longest
    · simp
    · intro e he
      rcases List.mem_append.mp he with h | h
      · rcases List.mem_append.mp h with h | h
        · exact Nat.le_of_lt (hnew e h)
        · rcases List.mem_cons.mp h with h | h
          · rw [h]
          · exact hmore e h
      · rw [List.mem_singleton.mp h]
        exact ht
  obtain ⟨x0, hx0⟩ := LogAll_writer_buffer content loop (newConsumer (buffer content)) rfl events
  obtain ⟨x2, hx2⟩ := LogAll_writer_buffer content loop (newConsumer (buffer content)) rfl
    (events ++ { service := s, container := c, message := m } :: more)
  obtain ⟨x1, hx1⟩ := LogAll_writer_buffer content loop (newConsumer (buffer content)) rfl
    (events ++ [{ service := s, container := c, message := m }])
  rw [← e0] at hx1
  refine ⟨w0, w1, w2, w3, ?_, ?_, ?_, ?_, ?_, ?_⟩
  · obtain ⟨cf, hcf, hwr⟩ := Log_writer_eq (LogAll loop (newConsumer (buffer content)) (events ++ { service := s, container := c, message := m } :: more)).1 (LogAll loop (newConsumer (buffer content)) (events ++ { service := s, container := c, message := m } :: more)).2 t c2 m2
    refine ⟨cf, hcf, ?_⟩
    have hnat : ((len s : Int) + 3).toNat = len s + 3 := by omega
    rw [hwr, w3, hx2, foldl_writeLine_buffer, buffer_state, buffer_state,
      sprintfPrefix_of_fits _ _ (by omega) (by omega), hnat]
    simp [sprintfLine_fun]
  · exact Log_buffer_state_append _ _ _ hx0 _ _ _
  · rw [e1]
    exact LogAll_buffer_state_append _ _ _ hx1 _
  · exact Log_buffer_state_append _ _ _ hx2 _ _ _
  · intro colors width loop2 content2 s2 c3 m3
    exact Log_buffer_state_append content2 loop2
      { colors := colors, width := width, writer := buffer content2 } rfl s2 c3 m3
  · intro later t3 c4 m4
    have eL : (Log (LogAll loop (newConsumer (buffer content)) (events ++ { service := s, container := c, message := m } :: later)).1 (LogAll loop (newConsumer (buffer content)) (events ++ { service := s, container := c, message := m } :: later)).2 t3 c4 m4) =
        LogAll loop (newConsumer (buffer content))
          ((events ++ { service := s, container := c, message := m } :: later) ++
            [{ service := t3, container := c4, message := m4 }]) :=
      (LogAll_snoc loop (newConsumer (buffer content)) _ { service := t3, container := c4, message := m4 }).symm
    have hwL : (len s : Int) + 3 ≤ (Log (LogAll loop (newConsumer (buffer content)) (events ++ { service := s, container := c, message := m } :: later)).1 (LogAll loop (newConsumer (buffer content)) (events ++ { service := s, container := c, message := m } :: later)).2 t3 c4 m4).2.width := by
      rw [eL]
      exact (LogAll_fresh_width loop (buffer content) _ (by simp)).1
        { service := s, container := c, message := m } (by simp)
    obtain ⟨xL, hxL⟩ := LogAll_writer_buffer content loop (newConsumer (buffer content)) rfl
      (events ++ { service := s, container := c, message := m } :: later)
    obtain ⟨cf, _, hwr⟩ := Log_writer_eq (LogAll loop (newConsumer (buffer content)) (events ++ { service := s, container := c, message := m } :: later)).1 (LogAll loop (newConsumer (buffer content)) (events ++ { service := s, container := c, message := m } :: later)).2 t3 c4 m4
    refine ⟨hwL, fun hfitL => ⟨cf, ?_⟩⟩
    rw [hwr, hxL, foldl_writeLine_buffer, buffer_state, buffer_state,
      sprintfPrefix_of_fits _ _ (by omega) hfitL]
    simp [sprintfLine_fun]

/-- Witness of C13: a line for `service1`, then the first line of
`a-much-longer-service-name`, then a second line for `service1`, with colors
that leave the text as it is: the first line keeps its column of 11, the two
others have a column of 29. -/
theorem longer_name_widens_later_lines_only_witness :
    (∀ e ∈ ([{ service := "service1".toList, container := [], message := "a".toList }] : List LogEvent), len e.service < len "a-much-longer-service-name".toList)
    ∧ (LogAll { next := fun _ x => x, drawn := 0 } (newConsumer (buffer []))
        ([{ service := "service1".toList, container := [], message := "a".toList }] ++
          { service := "a-much-longer-service-name".toList, container := [], message := "x".toList } :: [])).2.width =
        (len "a-much-longer-service-name".toList : Int) + 3
    ∧ (LogAll { next := fun _ x => x, drawn := 0 } (newConsumer (buffer []))
        [{ service := "service1".toList, container := [], message := "a".toList },
         { service := "a-much-longer-service-name".toList, container := [], message := "x".toList },
         { service := "service1".toList, container := [], message := "b".toList }]).2.writer.state =
        ("service1    | a\n" ++ "a-much-longer-service-name    | x\n"
          ++ "service1                      | b\n").toList :=
  ⟨by decide,
   (longer_name_widens_later_lines_only { next := fun _ x => x, drawn := 0 } [] [{ service := "service1".toList, container := [], message := "a".toList }] []
      "a-much-longer-service-name".toList [] "x".toList "service1".toList [] "b".toList
      (by decide) (by decide) (by decide) (by decide)).2.2.1,
   by decide⟩

/-- The color a fresh session assigns at the first message of a service: the
next value of the channel, after one value per distinct service seen before. -/
theorem LogAll_fresh_first_color {σ : Type} (loop : colorChan) (writer : ioWriter σ)
    (pre : List LogEvent) (t c0 m0 : GoString) (hfirst : t ∉ pre.map LogEvent.service) :
    (Log (LogAll loop (newConsumer writer) pre).1 (LogAll loop (newConsumer writer) pre).2
        t c0 m0).2.colors.get t = some (loop.next (loop.drawn + (pre.map LogEvent.service).dedup.length)) := by
  obtain ⟨_, hmem, hnext, hdrawn, _⟩ := LogAll_fresh_inv loop writer pre
  have hnot : t ∉ (LogAll loop (newConsumer writer) pre).2.colors.keys :=
    fun h => hfirst ((hmem t).mp h)
  have hget := (GoMap.get_eq_none_iff _ _).mpr hnot
  obtain ⟨_, hnew⟩ := Log_state (LogAll loop (newConsumer writer) pre).1
    (LogAll loop (newConsumer writer) pre).2 t c0 m0
  rw [(hnew hget).2.1, GoMap.get_set_self, hnext, hdrawn, LogAll_fresh_keys_length]

/-- C14: the color of a service is stable for the whole session. A `Log` call,
or any sequence of them, for this or any other service, leaves every entry of
`colors` as it is. So in a session started on a fresh consumer, where the first
message of the service `t` comes after the events `pre`, the color `t` gets is
the value the channel delivers then, and the lines of that first message as
well as the lines of every later message for `t`, after any events `post`, are
rendered with that one color function: each chunk written is that function
applied to the service column, followed by a space, the line and a line
break. -/
theorem color_stable_over_session {σ : Type} (loop : colorChan) (l : logConsumer σ)
    (s c m t : GoString) (cf : colorFunc) (events : List LogEvent)
    (fails : List GoString → GoString → Option GoError) (written : List GoString)
    (pre post : List LogEvent) (c0 m0 c1 m1 : GoString) :
    (l.colors.get t = some cf →
      (Log loop l s c m).2.colors.get t = some cf
      ∧ (LogAll loop l events).2.colors.get t = some cf)
    ∧ (t ∉ pre.map LogEvent.service →
      (Log (LogAll loop (newConsumer (recorder fails written)) pre).1 (LogAll loop (newConsumer (recorder fails written)) pre).2 t c0 m0).2.colors.get t = some (loop.next (loop.drawn + (pre.map LogEvent.service).dedup.length))
      ∧ (Log (LogAll loop (newConsumer (recorder fails written)) pre).1 (LogAll loop (newConsumer (recorder fails written)) pre).2 t c0 m0).2.writer.state =
          (LogAll loop (newConsumer (recorder fails written)) pre).2.writer.state ++
            (Split m0 '\n').map
              (fun line =>
                (loop.next (loop.drawn + (pre.map LogEvent.service).dedup.length)) (sprintfPrefix (Log (LogAll loop (newConsumer (recorder fails written)) pre).1 (LogAll loop (newConsumer (recorder fails written)) pre).2 t c0 m0).2.width t)
                  ++ ' ' :: (line ++ ['\n']))
      ∧ (LogAll loop (newConsumer (recorder fails written)) (pre ++ { service := t, container := c0, message := m0 } :: post)).2.colors.get t = some (loop.next (loop.drawn + (pre.map LogEvent.service).dedup.length))
      ∧ (Log (LogAll loop (newConsumer (recorder fails written)) (pre ++ { service := t, container := c0, message := m0 } :: post)).1 (LogAll loop (newConsumer (recorder fails written)) (pre ++ { service := t, container := c0, message := m0 } :: post)).2 t c1 m1).2.colors.get t = some (loop.next (loop.drawn + (pre.map LogEvent.service).dedup.length))
      ∧ (Log (LogAll loop (newConsumer (recorder fails written)) (pre ++ { service := t, container := c0, message := m0 } :: post)).1 (LogAll loop (newConsumer (recorder fails written)) (pre ++ { service := t, container := c0, message := m0 } :: post)).2 t c1 m1).2.writer.state =
          (LogAll loop (newConsumer (recorder fails written)) (pre ++ { service := t, container := c0, message := m0 } :: post)).2.writer.state ++
            (Split m1 '\n').map
              (fun line =>
                (loop.next (loop.drawn + (pre.map LogEvent.service).dedup.length)) (sprintfPrefix (Log (LogAll loop (newConsumer (recorder fails written)) (pre ++ { service := t, container := c0, message := m0 } :: post)).1 (LogAll loop (newConsumer (recorder fails written)) (pre ++ { service := t, container := c0, message := m0 } :: post)).2 t c1 m1).2.width t)
                  ++ ' ' :: (line ++ ['\n']))) := by
  constructor
  · intro ht
    exact ⟨Log_get_stable loop l s c m t cf ht, LogAll_get_stable loop l events t cf ht⟩
  · intro hfirst
    have h1 := LogAll_fresh_first_color loop (recorder fails written) pre t c0 m0 hfirst
    have esplit : (LogAll loop (newConsumer (recorder fails written)) (pre ++ { service := t, container := c0, message := m0 } :: post)) = LogAll (Log (LogAll loop (newConsumer (recorder fails written)) pre).1 (LogAll loop (newConsumer (recorder fails written)) pre).2 t c0 m0).1 (Log (LogAll loop (newConsumer (recorder fails written)) pre).1 (LogAll loop (newConsumer (recorder fails written)) pre).2 t c0 m0).2 post := by
      rw [← LogAll_snoc loop (newConsumer (recorder fails written)) pre { service := t, container := c0, message := m0 },
        ← LogAll_append, List.append_assoc]
      rfl
    have h2 : (LogAll loop (newConsumer (recorder fails written)) (pre ++ { service := t, container := c0, message := m0 } :: post)).2.colors.get t = some (loop.next (loop.drawn + (pre.map LogEvent.service).dedup.length)) := by
      rw [esplit]
      exact LogAll_get_stable _ _ post t _ h1
    have h3 := Log_get_stable (LogAll loop (newConsumer (recorder fails written)) (pre ++ { service := t, container := c0, message := m0 } :: post)).1 (LogAll loop (newConsumer (recorder fails written)) (pre ++ { service := t, container := c0, message := m0 } :: post)).2 t c1 m1 t _ h2
    obtain ⟨wp, hwp⟩ := LogAll_writer_recorder fails written loop (newConsumer (recorder fails written)) rfl pre
    obtain ⟨wa, hwa⟩ := LogAll_writer_recorder fails written loop (newConsumer (recorder fails written)) rfl
      (pre ++ { service := t, container := c0, message := m0 } :: post)
    have r1 := Log_writer_recorder fails wp (LogAll loop (newConsumer (recorder fails written)) pre).1 (LogAll loop (newConsumer (recorder fails written)) pre).2 hwp t c0 m0
    have r2 := Log_writer_recorder fails wa (LogAll loop (newConsumer (recorder fails written)) (pre ++ { service := t, container := c0, message := m0 } :: post)).1 (LogAll loop (newConsumer (recorder fails written)) (pre ++ { service := t, container := c0, message := m0 } :: post)).2 hwa t c1 m1
    rw [h1] at r1
    rw [h3] at r2
    refine ⟨h1, ?_, h2, h3, ?_⟩
    · rw [r1, hwp, recorder_state, recorder_state, sprintfLine_fun]
      rfl
    · rw [r2, hwa, recorder_state, recorder_state, sprintfLine_fun]
      rfl

/-- Witness of C14: a message for `web` on a consumer that knows `db`, and a
session whose first message is for `db`, followed by one for `web` and a second
one for `db`, with a channel whose colors put a `*` in front of the text. -/
theorem color_stable_over_session_witness :
    (Log { next := fun _ x => '*' :: x, drawn := 0 }
        { colors := [("db".toList, id)], width := 5, writer := recorder (fun _ _ => none) [] }
        "web".toList [] "up".toList).2.colors.get "db".toList = some id
    ∧ (LogAll { next := fun _ x => '*' :: x, drawn := 0 } (newConsumer (recorder (fun _ _ => none) []))
        ([] ++ { service := "db".toList, container := [], message := "one".toList } ::
          [{ service := "web".toList, container := [], message := "up".toList }])).2.colors.get
          "db".toList =
        some (({ next := fun _ x => '*' :: x, drawn := 0 } : colorChan).next
          (({ next := fun _ x => '*' :: x, drawn := 0 } : colorChan).drawn +
            (([] : List LogEvent).map LogEvent.service).dedup.length))
    ∧ (Log (LogAll { next := fun _ x => '*' :: x, drawn := 0 } (newConsumer (recorder (fun _ _ => none) []))
        ([] ++ { service := "db".toList, container := [], message := "one".toList } ::
          [{ service := "web".toList, container := [], message := "up".toList }])).1 (LogAll { next := fun _ x => '*' :: x, drawn := 0 } (newConsumer (recorder (fun _ _ => none) []))
        ([] ++ { service := "db".toList, container := [], message := "one".toList } ::
          [{ service := "web".toList, container := [], message := "up".toList }])).2 "db".toList [] "two".toList).2.writer.state =
        (LogAll { next := fun _ x => '*' :: x, drawn := 0 } (newConsumer (recorder (fun _ _ => none) []))
        ([] ++ { service := "db".toList, container := [], message := "one".toList } ::
          [{ service := "web".toList, container := [], message := "up".toList }])).2.writer.state ++
          (Split "two".toList '\n').map
            (fun line =>
              (({ next := fun _ x => '*' :: x, drawn := 0 } : colorChan).next
                (({ next := fun _ x => '*' :: x, drawn := 0 } : colorChan).drawn +
                  (([] : List LogEvent).map LogEvent.service).dedup.length))
                (sprintfPrefix (Log (LogAll { next := fun _ x => '*' :: x, drawn := 0 } (newConsumer (recorder (fun _ _ => none) []))
        ([] ++ { service := "db".toList, container := [], message := "one".toList } ::
          [{ service := "web".toList, container := [], message := "up".toList }])).1 (LogAll { next := fun _ x => '*' :: x, drawn := 0 } (newConsumer (recorder (fun _ _ => none) []))
        ([] ++ { service := "db".toList, container := [], message := "one".toList } ::
          [{ service := "web".toList, container := [], message := "up".toList }])).2 "db".toList [] "two".toList).2.width "db".toList)
                ++ ' ' :: (line ++ ['\n']))
    ∧ (Log (LogAll { next := fun _ x => '*' :: x, drawn := 0 } (newConsumer (recorder (fun _ _ => none) []))
        ([] ++ { service := "db".toList, container := [], message := "one".toList } ::
          [{ service := "web".toList, container := [], message := "up".toList }])).1 (LogAll { next := fun _ x => '*' :: x, drawn := 0 } (newConsumer (recorder (fun _ _ => none) []))
        ([] ++ { service := "db".toList, container := [], message := "one".toList } ::
          [{ service := "web".toList, container := [], message := "up".toList }])).2 "db".toList [] "two".toList).2.writer.state =
        ["*db    | one\n".toList, "*web    | up\n".toList, "*db     | two\n".toList] :=
  ⟨((color_stable_over_session { next := fun _ x => '*' :: x, drawn := 0 }
      { colors := [("db".toList, id)], width := 5, writer := recorder (fun _ _ => none) [] }
      "web".toList [] "up".toList "db".toList id
      [{ service := "web".toList, container := [], message := "up".toList }]
      (fun _ _ => none) [] []
      [{ service := "web".toList, container := [], message := "up".toList }]
      [] "one".toList [] "two".toList).1 rfl).1,
   ((color_stable_over_session { next := fun _ x => '*' :: x, drawn := 0 }
      { colors := [("db".toList, id)], width := 5, writer := recorder (fun _ _ => none) [] }
      "web".toList [] "up".toList "db".toList id
      [{ service := "web".toList, container := [], message := "up".toList }]
      (fun _ _ => none) [] []
      [{ service := "web".toList, container := [], message := "up".toList }]
      [] "one".toList [] "two".toList).2 (by decide)).2.2.1,
   ((color_stable_over_session { next := fun _ x => '*' :: x, drawn := 0 }
      { colors := [("db".toList, id)], width := 5, writer := recorder (fun _ _ => none) [] }
      "web".toList [] "up".toList "db".toList id
      [{ service := "web".toList, container := [], message := "up".toList }]
      (fun _ _ => none) [] []
      [{ service := "web".toList, container := [], message := "up".toList }]
      [] "one".toList [] "two".toList).2 (by decide)).2.2.2.2,
   by decide⟩

/-- C15: the width never decreases. For every consumer reached from a fresh one
by `Log` calls and every further `Log` call, the width after the call is at
least the width before it, and it is strictly greater exactly when the call is
the first message of a service whose name is longer, in bytes, than every name
seen before. -/
theorem width_never_decreases {σ : Type} (loop : colorChan) (writer : ioWriter σ)
    (events : List LogEvent) (s c m : GoString) :
    (LogAll loop (newConsumer writer) events).2.width ≤ (Log (LogAll loop (newConsumer writer) events).1 (LogAll loop (newConsumer writer) events).2 s c m).2.width
    ∧ ((LogAll loop (newConsumer writer) events).2.width < (Log (LogAll loop (newConsumer writer) events).1 (LogAll loop (newConsumer writer) events).2 s c m).2.width ↔
        s ∉ events.map LogEvent.service ∧ ∀ e ∈ events, len e.service < len s) := by
  have esnoc : (Log (LogAll loop (newConsumer writer) events).1 (LogAll loop (newConsumer writer) events).2 s c m) =
      LogAll loop (newConsumer writer)
        (events ++ [{ service := s, container := c, message := m }]) :=
    (LogAll_snoc loop (newConsumer writer) events
      { service := s, container := c, message := m }).symm
  obtain ⟨hA, e1, he1, hB⟩ := LogAll_fresh_width loop writer
    (events ++ [{ service := s, container := c, message := m }]) (by simp)
  rw [← esnoc] at hA hB
  have hs := hA { service := s, container := c, message := m } (by simp)
  simp only at hs
  obtain ⟨_, hmem, _, _, h0, _⟩ := LogAll_fresh_inv loop writer events
  have hold : events ≠ [] → ∀ e ∈ events, (len e.service : Int) + 3 ≤ (LogAll loop (newConsumer writer) events).2.width :=
    fun hne => (LogAll_fresh_width loop writer events hne).1
  have hmono : (LogAll loop (newConsumer writer) events).2.width ≤ (Log (LogAll loop (newConsumer writer) events).1 (LogAll loop (newConsumer writer) events).2 s c m).2.width := by
    by_cases hne : events = []
    · rw [h0 hne]
      omega
    · obtain ⟨_, e, he, hw⟩ := LogAll_fresh_width loop writer events hne
      have := hA e (List.mem_append_left _ he)
      omega
  refine ⟨hmono, ?_, ?_⟩
  · intro hlt
    have hnotin : s ∉ events.map LogEvent.service := by
      intro hin
      have hkey := (hmem s).mpr hin
      cases hget : GoMap.get (LogAll loop (newConsumer writer) events).2.colors s with
      | none => exact (GoMap.get_eq_none_iff _ _).mp hget hkey
      | some cf =>
        have hsame := ((Log_state (LogAll loop (newConsumer writer) events).1 (LogAll loop (newConsumer writer) events).2 s c m).1 cf hget).2.2
        rw [hsame] at hlt
        exact lt_irrefl _ hlt
    refine ⟨hnotin, ?_⟩
    intro e he
    have hne : events ≠ [] := List.ne_nil_of_mem he
    have hle := hold hne e he
    rcases List.mem_append.mp he1 with h | h
    · have := hold hne e1 h
      omega
    · rw [List.mem_singleton.mp h] at hB
      simp only at hB
      omega
  · rintro ⟨_, hall⟩
    have := LogAll_fresh_width_lt loop writer events s hall
    omega

theorem Log_container_irrelevant {σ : Type} (loop : colorChan) (l : logConsumer σ)
    (service container container2 message : GoString) :
    Log loop l service container message = Log loop l service container2 message := rfl

theorem LogAll_container_irrelevant {σ : Type} (loop : colorChan) (l : logConsumer σ)
    (events : List LogEvent) (rename : LogEvent → GoString) :
    LogAll loop l (events.map (fun e => { e with container := rename e })) =
      LogAll loop l events := by
  induction events generalizing loop l with
  | nil => rfl
  | cons e rest ih =>
    rw [List.map_cons, LogAll_cons, LogAll_cons, ih]
    rfl

/-- C16: `Log` ignores its container argument. For every consumer, every state
of the channel, every service and message, two calls that differ only in the
container give the same channel and the same consumer; with a sink that
appends, they leave the same content in the sink, and the same colors and
width. The same holds along a whole sequence of calls, whatever containers the
events name. -/
theorem Log_ignores_container {σ : Type} (loop : colorChan) (l : logConsumer σ)
    (service container container2 message : GoString) (colors : GoMap colorFunc)
    (width : Int) (content : GoString) (events : List LogEvent)
    (rename : LogEvent → GoString) :
    Log loop l service container message = Log loop l service container2 message
    ∧ (Log loop { colors := colors, width := width, writer := buffer content }
        service container message).2.writer.state =
      (Log loop { colors := colors, width := width, writer := buffer content }
        service container2 message).2.writer.state
    ∧ (Log loop { colors := colors, width := width, writer := buffer content }
        service container message).2.colors =
      (Log loop { colors := colors, width := width, writer := buffer content }
        service container2 message).2.colors
    ∧ (Log loop { colors := colors, width := width, writer := buffer content }
        service container message).2.width =
      (Log loop { colors := colors, width := width, writer := buffer content }
        service container2 message).2.width
    ∧ (Log loop { colors := colors, width := width, writer := buffer content }
        service container message).1 =
      (Log loop { colors := colors, width := width, writer := buffer content }
        service container2 message).1
    ∧ LogAll loop l (events.map (fun e => { e with container := rename e })) =
        LogAll loop l events := by
  have h := Log_container_irrelevant loop
    { colors := colors, width := width, writer := buffer content }
    service container container2 message
  refine ⟨Log_container_irrelevant loop l service container container2 message, ?_, ?_, ?_, ?_,
    LogAll_container_irrelevant loop l events rename⟩
  · rw [h]
  · rw [h]
  · rw [h]
  · rw [h]

end Ecs

/-! ## The width limit of `fmt` -/

namespace Ecs

theorem len_replicate_a (n : Nat) : len (List.replicate n 'a') = n := by
  have h1 : Char.utf8Size 'a' = 1 := by decide
  simp [len, List.map_replicate, List.sum_replicate, h1]

/-- One `Log` call whose width is one `fmt` gives up on, with a sink that
records the chunks: the service column is the error text of `fmt`. -/
theorem Log_recorder_oversize (fails : List GoString → GoString → Option GoError)
    (written : List GoString) (loop : colorChan) (l : logConsumer (List GoString))
    (hw : l.writer = recorder fails written) (service container message : GoString)
    (hbig : 10000010 ≤ (Log loop l service container message).2.width) :
    (Log loop l service container message).2.writer.state =
      written ++ (Split message '\n').map (fun line =>
        ((Log loop l service container message).2.colors.get service).getD id
            ("%!(NOVERB)%!(EXTRA string=".toList ++ service ++ [')'])
          ++ ' ' :: (line ++ ['\n'])) := by
  rw [Log_writer_recorder fails written loop l hw, recorder_state,
    sprintfPrefix_of_tooLarge _ _ hbig, sprintfLine_fun]

theorem noverb_ne_padded (n w : Nat) (hn : 0 < n) (tail tail2 : GoString) :
    "%!(NOVERB)%!(EXTRA string=".toList ++ tail ≠
      List.replicate n 'a' ++ List.replicate w ' ' ++ tail2 := by
  obtain ⟨k, rfl⟩ : ∃ k, n = k + 1 := ⟨n - 1, by omega⟩
  intro h
  have h2 := congrArg List.head? h
  simp [List.replicate_succ] at h2

/-- A first message for a name of `n` bytes, `n` at least 10000007, on a fresh
consumer: the line written is not the padded name. -/
theorem first_line_fails_oversize (n : Nat) (hn : 10000007 ≤ n) :
    ¬ ∃ cf : colorFunc,
      (Log { next := fun _ x => x, drawn := 0 } (newConsumer (recorder (fun _ _ => none) [])) (List.replicate n 'a') [] []).2.colors.get (List.replicate n 'a')
        = some cf
      ∧ (Log { next := fun _ x => x, drawn := 0 } (newConsumer (recorder (fun _ _ => none) [])) (List.replicate n 'a') [] []).2.writer.state =
        (LogAll { next := fun _ x => x, drawn := 0 } (newConsumer (recorder (fun _ _ => none) [])) []).2.writer.state ++
          (Split [] '\n').map (fun line =>
            cf (List.replicate n 'a' ++ List.replicate
                ((Log { next := fun _ x => x, drawn := 0 } (newConsumer (recorder (fun _ _ => none) [])) (List.replicate n 'a') [] []).2.width.toNat
                  - (List.replicate n 'a').length) ' ' ++ [' ', '|'])
              ++ [' '] ++ line ++ ['\n']) := by
  rintro ⟨cf, hget, hstate⟩
  have hcolor := LogAll_fresh_first_color { next := fun _ x => x, drawn := 0 } (recorder (fun _ _ => none) []) []
    (List.replicate n 'a') [] [] (by simp)
  rw [LogAll_nil] at hcolor
  simp only at hcolor
  have hw : (Log { next := fun _ x => x, drawn := 0 } (newConsumer (recorder (fun _ _ => none) [])) (List.replicate n 'a') [] []).2.width = (n : Int) + 3 := by
    have := LogAll_fresh_width_of_longest { next := fun _ x => x, drawn := 0 } (recorder (fun _ _ => none) [])
      [{ service := List.replicate n 'a', container := [], message := [] }]
      (List.replicate n 'a') (by simp) (by simp)
    rw [len_replicate_a] at this
    exact this
  have hbig : 10000010 ≤ (Log { next := fun _ x => x, drawn := 0 } (newConsumer (recorder (fun _ _ => none) [])) (List.replicate n 'a') [] []).2.width := by
    rw [hw]
    omega
  have hreal := Log_recorder_oversize (fun _ _ => none) [] { next := fun _ x => x, drawn := 0 } (newConsumer (recorder (fun _ _ => none) [])) rfl
    (List.replicate n 'a') [] [] hbig
  rw [hget] at hcolor
  have hcf : cf = fun x => x := Option.some.inj hcolor
  rw [hreal, hget, hcf] at hstate
  simp only [LogAll_nil, newConsumer, recorder_state, Split, List.map_cons, List.map_nil,
    List.nil_append, Option.getD_some, List.cons.injEq, and_true] at hstate
  exact noverb_ne_padded n _ (by omega) _ _
    (by simpa [List.append_assoc] using hstate)

/-- C3, refuted as stated: on a fresh consumer, the first message of a service
whose name is 10000007 times the letter `a` gives the width 10000010, which
`fmt` does not parse, and the line written is not the name padded to the width
followed by ` |`. -/
theorem Log_line_format_counterexample :
    ¬ ∃ cf : colorFunc,
      (Log { next := fun _ x => x, drawn := 0 } (newConsumer (recorder (fun _ _ => none) [])) (List.replicate 10000007 'a') [] []).2.colors.get (List.replicate 10000007 'a')
        = some cf
      ∧ (Log { next := fun _ x => x, drawn := 0 } (newConsumer (recorder (fun _ _ => none) [])) (List.replicate 10000007 'a') [] []).2.writer.state =
        (LogAll { next := fun _ x => x, drawn := 0 } (newConsumer (recorder (fun _ _ => none) [])) []).2.writer.state ++
          (Split [] '\n').map (fun line =>
            cf ((List.replicate 10000007 'a') ++ List.replicate
                ((Log { next := fun _ x => x, drawn := 0 } (newConsumer (recorder (fun _ _ => none) [])) (List.replicate 10000007 'a') [] []).2.width.toNat
                  - (List.replicate 10000007 'a').length) ' ' ++ [' ', '|'])
              ++ [' '] ++ line ++ ['\n']) :=
  first_line_fails_oversize 10000007 (by decide)

/-- One `Log` call with a sink that appends: the content after the call. -/
theorem Log_buffer_state (content : GoString) (loop : colorChan)
    (l : logConsumer GoString) (hw : l.writer = buffer content)
    (service container message : GoString) :
    ∃ cf : colorFunc,
      (Log loop l service container message).2.colors.get service = some cf
      ∧ (Log loop l service container message).2.writer.state =
        content ++ ((Split message '\n').map (fun line =>
          cf (sprintfPrefix (Log loop l service container message).2.width service)
            ++ ' ' :: (line ++ ['\n']))).flatten := by
  obtain ⟨cf, hcf, hwr⟩ := Log_writer_eq loop l service container message
  refine ⟨cf, hcf, ?_⟩
  rw [hwr, hw, foldl_writeLine_buffer, buffer_state, sprintfLine_fun]

/-- A line for `b`, then the first message of a name of `n` bytes, `n` at least
10000007, then a second line for `b`: that line is not padded to the new
width. -/
theorem later_line_fails_oversize (n : Nat) (hn : 10000007 ≤ n) :
    ¬ ∃ cf : colorFunc,
      (Log (LogAll { next := fun _ x => x, drawn := 0 } (newConsumer (buffer [])) ([{ service := "b".toList, container := [], message := "x".toList }] ++ { service := (List.replicate n 'a'), container := [], message := [] } :: [])).1 (LogAll { next := fun _ x => x, drawn := 0 } (newConsumer (buffer [])) ([{ service := "b".toList, container := [], message := "x".toList }] ++ { service := (List.replicate n 'a'), container := [], message := [] } :: [])).2 "b".toList [] "y".toList).2.colors.get "b".toList = some cf
      ∧ (Log (LogAll { next := fun _ x => x, drawn := 0 } (newConsumer (buffer [])) ([{ service := "b".toList, container := [], message := "x".toList }] ++ { service := (List.replicate n 'a'), container := [], message := [] } :: [])).1 (LogAll { next := fun _ x => x, drawn := 0 } (newConsumer (buffer [])) ([{ service := "b".toList, container := [], message := "x".toList }] ++ { service := (List.replicate n 'a'), container := [], message := [] } :: [])).2 "b".toList [] "y".toList).2.writer.state =
          (LogAll { next := fun _ x => x, drawn := 0 } (newConsumer (buffer [])) ([{ service := "b".toList, container := [], message := "x".toList }] ++ { service := (List.replicate n 'a'), container := [], message := [] } :: [])).2.writer.state ++
            ((Split "y".toList '\n').map (fun line =>
              cf ("b".toList ++ List.replicate (len (List.replicate n 'a') + 3 - "b".toList.length) ' '
                  ++ [' ', '|'])
                ++ ' ' :: line ++ ['\n'])).flatten := by
  rintro ⟨cf, hget, hstate⟩
  have hfirst := LogAll_fresh_first_color { next := fun _ x => x, drawn := 0 } (buffer []) [] "b".toList [] "x".toList
    (by simp)
  rw [LogAll_nil] at hfirst
  simp only at hfirst
  have e2 : (LogAll { next := fun _ x => x, drawn := 0 } (newConsumer (buffer [])) ([{ service := "b".toList, container := [], message := "x".toList }] ++ { service := (List.replicate n 'a'), container := [], message := [] } :: [])) =
      LogAll (Log { next := fun _ x => x, drawn := 0 } (newConsumer (buffer [])) "b".toList [] "x".toList).1
        (Log { next := fun _ x => x, drawn := 0 } (newConsumer (buffer [])) "b".toList [] "x".toList).2
        [{ service := (List.replicate n 'a'), container := [], message := [] }] := rfl
  have hst2 : (LogAll { next := fun _ x => x, drawn := 0 } (newConsumer (buffer [])) ([{ service := "b".toList, container := [], message := "x".toList }] ++ { service := (List.replicate n 'a'), container := [], message := [] } :: [])).2.colors.get "b".toList = some (fun x => x) := by
    rw [e2]
    exact LogAll_get_stable _ _ _ _ _ hfirst
  have hL2 := Log_get_stable (LogAll { next := fun _ x => x, drawn := 0 } (newConsumer (buffer [])) ([{ service := "b".toList, container := [], message := "x".toList }] ++ { service := (List.replicate n 'a'), container := [], message := [] } :: [])).1 (LogAll { next := fun _ x => x, drawn := 0 } (newConsumer (buffer [])) ([{ service := "b".toList, container := [], message := "x".toList }] ++ { service := (List.replicate n 'a'), container := [], message := [] } :: [])).2 "b".toList [] "y".toList "b".toList _ hst2
  rw [hget] at hL2
  have hcf : cf = fun x => x := Option.some.inj hL2
  have hw : (Log (LogAll { next := fun _ x => x, drawn := 0 } (newConsumer (buffer [])) ([{ service := "b".toList, container := [], message := "x".toList }] ++ { service := (List.replicate n 'a'), container := [], message := [] } :: [])).1 (LogAll { next := fun _ x => x, drawn := 0 } (newConsumer (buffer [])) ([{ service := "b".toList, container := [], message := "x".toList }] ++ { service := (List.replicate n 'a'), container := [], message := [] } :: [])).2 "b".toList [] "y".toList).2.width = (n : Int) + 3 := by
    have hb : len "b".toList = 1 := by decide
    have := LogAll_fresh_width_of_longest { next := fun _ x => x, drawn := 0 } (buffer [])
      (([{ service := "b".toList, container := [], message := "x".toList }] ++ { service := (List.replicate n 'a'), container := [], message := [] } :: []) ++
        [{ service := "b".toList, container := [], message := "y".toList }])
      (List.replicate n 'a') (by simp) (by
        intro e he
        simp only [List.cons_append, List.nil_append, List.mem_cons, List.mem_singleton,
          List.not_mem_nil, or_false] at he
        rcases he with h | h | h <;> rw [h] <;> simp only [len_replicate_a, hb] <;> omega)
    rw [len_replicate_a, LogAll_snoc] at this
    exact this
  obtain ⟨x2, hx2⟩ := LogAll_writer_buffer [] { next := fun _ x => x, drawn := 0 } (newConsumer (buffer [])) rfl
    ([{ service := "b".toList, container := [], message := "x".toList }] ++ { service := (List.replicate n 'a'), container := [], message := [] } :: [])
  obtain ⟨cf2, hcf2, hreal⟩ := Log_buffer_state ([] ++ x2) (LogAll { next := fun _ x => x, drawn := 0 } (newConsumer (buffer [])) ([{ service := "b".toList, container := [], message := "x".toList }] ++ { service := (List.replicate n 'a'), container := [], message := [] } :: [])).1 (LogAll { next := fun _ x => x, drawn := 0 } (newConsumer (buffer [])) ([{ service := "b".toList, container := [], message := "x".toList }] ++ { service := (List.replicate n 'a'), container := [], message := [] } :: [])).2 hx2
    "b".toList [] "y".toList
  rw [hget] at hcf2
  have hcf3 : cf2 = cf := (Option.some.inj hcf2).symm
  rw [hreal, hx2, buffer_state, sprintfPrefix_of_tooLarge _ _ (by rw [hw]; omega), hcf3,
    hcf] at hstate
  have hchunks := List.append_cancel_left hstate
  have hsplit : Split "y".toList '\n' = ["y".toList] := by decide
  rw [hsplit] at hchunks
  simp only [List.map_cons, List.map_nil, List.flatten_cons, List.flatten_nil,
    List.append_nil] at hchunks
  have hhead := congrArg List.head? hchunks
  simp at hhead

/-- C13, refuted as stated: after a line for `b`, the first message of a service
whose name is 10000007 times the letter `a`, longer than `b`, gives the width
10000010, which `fmt` does not parse, and the line then written for `b` is not
`b` padded to that width followed by ` |`. -/
theorem longer_name_widens_later_lines_only_counterexample :
    (∀ e ∈ ([{ service := "b".toList, container := [], message := "x".toList }] : List LogEvent), len e.service < len (List.replicate 10000007 'a'))
    ∧ len "b".toList ≤ len (List.replicate 10000007 'a')
    ∧ ¬ ∃ cf : colorFunc,
      (Log (LogAll { next := fun _ x => x, drawn := 0 } (newConsumer (buffer [])) ([{ service := "b".toList, container := [], message := "x".toList }] ++ { service := (List.replicate 10000007 'a'), container := [], message := [] } :: [])).1 (LogAll { next := fun _ x => x, drawn := 0 } (newConsumer (buffer [])) ([{ service := "b".toList, container := [], message := "x".toList }] ++ { service := (List.replicate 10000007 'a'), container := [], message := [] } :: [])).2 "b".toList [] "y".toList).2.colors.get "b".toList = some cf
      ∧ (Log (LogAll { next := fun _ x => x, drawn := 0 } (newConsumer (buffer [])) ([{ service := "b".toList, container := [], message := "x".toList }] ++ { service := (List.replicate 10000007 'a'), container := [], message := [] } :: [])).1 (LogAll { next := fun _ x => x, drawn := 0 } (newConsumer (buffer [])) ([{ service := "b".toList, container := [], message := "x".toList }] ++ { service := (List.replicate 10000007 'a'), container := [], message := [] } :: [])).2 "b".toList [] "y".toList).2.writer.state =
          (LogAll { next := fun _ x => x, drawn := 0 } (newConsumer (buffer [])) ([{ service := "b".toList, container := [], message := "x".toList }] ++ { service := (List.replicate 10000007 'a'), container := [], message := [] } :: [])).2.writer.state ++
            ((Split "y".toList '\n').map (fun line =>
              cf ("b".toList ++ List.replicate (len (List.replicate 10000007 'a') + 3 - "b".toList.length) ' '
                  ++ [' ', '|'])
                ++ ' ' :: line ++ ['\n'])).flatten :=
  ⟨by
      intro e he
      rw [List.mem_singleton.mp he, len_replicate_a]
      decide,
    by
      rw [len_replicate_a]
      decide,
    later_line_fails_oversize 10000007 (by decide)⟩

end Ecs
